import Mathlib

/-!
Verification of the himd-js core library against its natural-language
specification.  The TypeScript sources are shallowly embedded: byte buffers
become total maps from offsets to byte values, the mutating methods of the
HiMD class become pure state-transforming functions, and JavaScript numbers
are modelled by Nat (with explicit masking where the source relies on
Uint8Array truncation or on 32-bit integer coercion) or by Int where the
source can produce negative values.  External collaborators (the DES/3DES
primitives of crypto-js, the iconv/jconv text codecs, the filesystem) are
taken as parameters or modelled from the specification, as noted at each
definition.
-/

namespace HiMDJS

/-! ## Bit-manipulation helper lemmas -/

theorem extractBits (x lo w : Nat) :
    (x &&& ((2 ^ w - 1) <<< lo)) >>> lo = x >>> lo % 2 ^ w := by
  apply Nat.eq_of_testBit_eq
  intro i
  simp only [Nat.testBit_shiftRight, Nat.testBit_and, Nat.testBit_shiftLeft,
    Nat.testBit_two_pow_sub_one, Nat.testBit_mod_two_pow]
  have h1 : lo ≤ lo + i := Nat.le_add_right lo i
  have h2 : lo + i - lo = i := by omega
  simp [h1, h2, Bool.and_comm]

theorem lor_eq_add_of_lt {a : Nat} (b k : Nat) (h : a < 2 ^ k) :
    (b <<< k) ||| a = b * 2 ^ k + a := by
  rw [Nat.shiftLeft_eq, Nat.mul_comm b (2 ^ k), Nat.mul_add_lt_is_or h,
    Nat.mul_comm (2 ^ k) b]

theorem lor_lo_eq_add_of_lt {a : Nat} (b k : Nat) (h : a < 2 ^ k) :
    a ||| (b <<< k) = b * 2 ^ k + a := by
  rw [Nat.lor_comm, lor_eq_add_of_lt _ _ h]

/-- Reassembling a 16-bit value from its two big-endian bytes. -/
theorem uint16_reassemble {v : Nat} (h : v < 2 ^ 16) :
    (((v >>> 8) &&& 0xff) <<< 8) ||| (v &&& 0xff) = v := by
  have hff : (0xff : Nat) = 2 ^ 8 - 1 := by norm_num
  have hlo : v &&& 0xff = v % 2 ^ 8 := by
    rw [hff, Nat.and_pow_two_sub_one_eq_mod]
  have hhi : (v >>> 8) &&& 0xff = v / 2 ^ 8 := by
    rw [hff, Nat.and_pow_two_sub_one_eq_mod, Nat.shiftRight_eq_div_pow]
    exact Nat.mod_eq_of_lt (by omega)
  rw [hlo, hhi, lor_eq_add_of_lt _ _ (Nat.mod_lt _ (by norm_num))]
  omega

/-! ## Byte buffers and src/utils.ts -/

/-- A byte buffer (a Uint8Array such as the 0x50000-byte TIF image),
modelled as a total map from offsets to byte values. -/
def Buf := Nat → Nat

/-- Storing one byte; a JavaScript Uint8Array truncates the stored value
modulo 256. -/
def setByte (data : Buf) (offset v : Nat) : Buf :=
  fun i => if i = offset then v % 256 else data i

/-- Predicate: every cell of the buffer holds a byte value. -/
def BytesOk (data : Buf) : Prop := ∀ i, data i < 256

/-- getUint16 from src/utils.ts: (data[o] << 8) | data[o+1]. -/
def getUint16 (data : Buf) (offset : Nat) : Nat :=
  ((data offset) <<< 8) ||| data (offset + 1)

/-- setUint16 from src/utils.ts: data[o] = (v >> 8) & 0xff; data[o+1] = v & 0xff. -/
def setUint16 (data : Buf) (value offset : Nat) : Buf :=
  setByte (setByte data offset ((value >>> 8) &&& 0xff)) (offset + 1) (value &&& 0xff)

/-- getUint32 from src/utils.ts.  The JavaScript expression
(d[o] << 24) | (d[o+1] << 16) | (d[o+2] << 8) | d[o+3] is evaluated with
signed 32-bit semantics, so for a high byte of 0x80 or above the result is
negative; toInt32 makes that explicit. -/
def toInt32 (v : Nat) : Int :=
  if v % 2 ^ 32 < 2 ^ 31 then (v % 2 ^ 32 : Nat) else (v % 2 ^ 32 : Nat) - 2 ^ 32

def getUint32 (data : Buf) (offset : Nat) : Int :=
  toInt32 (((data offset) <<< 24) ||| ((data (offset + 1)) <<< 16) |||
    ((data (offset + 2)) <<< 8) ||| data (offset + 3))

/-- setUint32 from src/utils.ts: the four stores data[o+i] = (v >> s) & 0xff
under JavaScript 32-bit semantics; for any integer argument they store the
big-endian bytes of the value reduced modulo 2^32. -/
def setUint32 (data : Buf) (value : Int) (offset : Nat) : Buf :=
  let w : Nat := (value % (2 ^ 32 : Int)).toNat
  setByte (setByte (setByte (setByte data
    offset ((w >>> 24) &&& 0xff))
    (offset + 1) ((w >>> 16) &&& 0xff))
    (offset + 2) ((w >>> 8) &&& 0xff))
    (offset + 3) (w &&& 0xff)

theorem bytesOk_setByte {data : Buf} (h : BytesOk data) (o v : Nat) :
    BytesOk (setByte data o v) := by
  intro i
  unfold setByte
  split
  · exact Nat.mod_lt _ (by norm_num)
  · exact h i

theorem bytesOk_setUint16 {data : Buf} (h : BytesOk data) (v o : Nat) :
    BytesOk (setUint16 data v o) :=
  bytesOk_setByte (bytesOk_setByte h _ _) _ _

theorem getUint16_lt {data : Buf} (h : BytesOk data) (o : Nat) :
    getUint16 data o < 2 ^ 16 := by
  unfold getUint16
  apply Nat.or_lt_two_pow
  · rw [Nat.shiftLeft_eq]
    have := h o
    calc data o * 2 ^ 8 ≤ 255 * 2 ^ 8 := Nat.mul_le_mul_right _ (by omega)
      _ < 2 ^ 16 := by norm_num
  · exact lt_trans (h (o + 1)) (by norm_num)

/-! ## Codec descriptors (src/codecs.ts) and frames per block (src/trackinfo.ts) -/

/-- CodecInfo from src/codecs.ts: a codec id byte together with the five
codec-info bytes of a track. -/
structure CodecInfo where
  codecId : Nat
  codecInfo : Fin 5 → Nat

/-- isMpeg from src/codecs.ts. -/
def isMpeg (codecInfo : Fin 5 → Nat) : Bool :=
  (codecInfo 0 &&& 0b11) == 0b11

/-- getSamplesPerFrame from src/codecs.ts; none models the thrown
HiMDError on an invalid codec id. -/
def getSamplesPerFrame (ci : CodecInfo) : Option Nat :=
  match ci.codecId with
  | 0x80 => some (64 / 4)
  | 0x00 => some 1024
  | 0x01 =>
    if !isMpeg ci.codecInfo then some 2048
    else if (ci.codecInfo 3 &&& 0x30) == 0x30 then some 384
    else some (384 * 3)
  | _ => none

/-- getSampleRate from src/codecs.ts.  The result is rational because the
MPEG branch divides a table entry by 4 - (codecInfo[3] >> 6).  none models
both an out-of-range table index (JavaScript: undefined, becoming NaN in
later arithmetic) and the thrown HiMDError of the default branch. -/
def getSampleRate (ci : CodecInfo) : Option ℚ :=
  let atracRates : List ℚ := [32000, 44100, 48000, 88200, 96000]
  let mpegRates : List ℚ := [44100, 48000, 32000]
  let codecId := if ci.codecId == 1 && !isMpeg ci.codecInfo then 0 else ci.codecId
  match codecId with
  | 0x80 => some 44100
  | 0x00 => atracRates.get? (ci.codecInfo 1 >>> 5)
  | 0x01 =>
    (mpegRates.get? (ci.codecInfo 4 >>> 6)).map
      (fun r => r / (4 - (ci.codecInfo 3 >>> 6 : Nat)))
  | _ => none

/-- MPEG branch of getKBPS from src/codecs.ts (the bitrate table lookup).
The guards make every list index in range, so the getD defaults are never
used on byte-valued input. -/
def getKBPSMpeg (codecInfo : Fin 5 → Nat) : Nat :=
  let map : List (List (List Nat)) := [
    [ [0,32,64,96,128,160,192,224,256,288,320,352,384,416,448,0],
      [0,32,48,56,64,80,96,112,128,160,192,224,256,320,384,0],
      [0,32,40,48,56,64,80,96,112,128,160,192,224,256,320,0] ],
    [ [0,32,48,56,64,80,96,112,128,144,160,176,192,224,256,0],
      [0,8,16,24,32,40,48,56,64,80,96,112,128,144,160,0],
      [0,8,16,24,32,40,48,56,64,80,96,112,128,144,160,0] ] ]
  if (codecInfo 3 &&& 0xC0) == 0x40 || (codecInfo 3 &&& 0x30) == 0 then 0
  else
    (((map.getD (1 - ((codecInfo 3 &&& 0x40) >>> 6)) []).getD
      (3 - ((codecInfo 3 &&& 0x30) >>> 4)) []).getD (codecInfo 3 &&& 0xF) 0)

/-- getBytesPerFrame from src/codecs.ts.  In the MPEG sub-branch the
JavaScript source computes a float and truncates it with a bitwise and
against ~0 or ~3 (32-bit semantics; on the small nonnegative values
produced here those are the masks 0xFFFFFFFF and 0xFFFFFFFC).  A missing
sample rate (undefined table entry) propagates NaN, and NaN & mask is 0.
none models the undefined returned for a codec id outside the switch. -/
def getBytesPerFrame (ci : CodecInfo) : Option Nat :=
  match ci.codecId with
  | 0x80 => some 64
  | 0x00 => some (ci.codecInfo 2 * 8)
  | 0x01 =>
    if isMpeg ci.codecInfo then
      let mask : Nat :=
        if (ci.codecInfo 3 &&& 0xC0) == 0xC0 then 0xFFFFFFFC else 0xFFFFFFFF
      match getSamplesPerFrame ci, getSampleRate ci with
      | some samples, some rate =>
          some ((Rat.floor ((samples * (125 * getKBPSMpeg ci.codecInfo) : ℚ) / rate)).toNat &&& mask)
      | _, _ => some 0
    else
      some ((((((ci.codecInfo 1) <<< 8) ||| ci.codecInfo 2) &&& 0x3FF) + 1) * 8)
  | _ => none

/-- HIMD_AUDIO_SIZE from src/streams.ts. -/
def HIMD_AUDIO_SIZE : Nat := 0x3FC0

/-- getFramesPerBlock from src/trackinfo.ts.  none models the NaN produced
by Math.floor(0x3FBF / undefined) when getBytesPerFrame fell through its
switch. -/
def getFramesPerBlock (ci : CodecInfo) : Option Nat :=
  match getBytesPerFrame ci with
  | none => none
  | some frameSize =>
    if frameSize == 0 then some 0
    else if ci.codecId == 0x80 then some (HIMD_AUDIO_SIZE / 64)
    else some (0x3FBF / frameSize)

theorem rat_floor_eq_intFloor (q : ℚ) : Rat.floor q = ⌊q⌋ := rfl

/-- C3, counterexample: a plain MPEG-1 Layer III 128 kbps 44.1 kHz track
(the codec info written by the MP3 upload path) has codec id 1 and
codecInfo[0] & 0b11 = 0b11, yet getFramesPerBlock returns 39, not 0:
getBytesPerFrame is 416 for it, and the source only returns 0 when
getBytesPerFrame is 0. -/
theorem getFramesPerBlock_mpeg_counterexample :
    isMpeg ![3, 0, 0x80, 0xD9, 0] = true ∧
    getBytesPerFrame ⟨1, ![3, 0, 0x80, 0xD9, 0]⟩ = some 416 ∧
    getFramesPerBlock ⟨1, ![3, 0, 0x80, 0xD9, 0]⟩ = some 39 ∧
    getFramesPerBlock ⟨1, ![3, 0, 0x80, 0xD9, 0]⟩ ≠ some 0 := by
  have hsam : getSamplesPerFrame ⟨1, ![3, 0, 0x80, 0xD9, 0]⟩ = some 1152 := by decide
  have hk : getKBPSMpeg ![3, 0, 0x80, 0xD9, 0] = 128 := by decide
  have hr : getSampleRate ⟨1, ![3, 0, 0x80, 0xD9, 0]⟩ = some 44100 := by
    simp [getSampleRate, isMpeg]
    norm_num
  have hb : getBytesPerFrame ⟨1, ![3, 0, 0x80, 0xD9, 0]⟩ = some 416 := by
    simp only [getBytesPerFrame, hsam, hr, hk]
    norm_num [isMpeg, rat_floor_eq_intFloor]
    decide
  have hf : getFramesPerBlock ⟨1, ![3, 0, 0x80, 0xD9, 0]⟩ = some 39 := by
    simp [getFramesPerBlock, hb]
  exact ⟨by decide, hb, hf, by simp [hf]⟩

/-- C3 (amended): getFramesPerBlock returns 0x3FC0/64 = 255 for LPCM
tracks; for every other track it returns 0 exactly when the derived
bytes-per-frame is 0 (which for MPEG happens only for degenerate codec
info, not for all MPEG tracks), and floor(0x3FBF / bytesPerFrame)
otherwise. -/
theorem getFramesPerBlock_spec (ci : CodecInfo)
    (h : ci.codecId = 0 ∨ ci.codecId = 1 ∨ ci.codecId = 0x80) :
    (ci.codecId = 0x80 → getFramesPerBlock ci = some 255) ∧
    (ci.codecId ≠ 0x80 → ∃ fs, getBytesPerFrame ci = some fs ∧
        getFramesPerBlock ci = some (if fs = 0 then 0 else 0x3FBF / fs)) := by
  constructor
  · intro h80
    simp [getFramesPerBlock, getBytesPerFrame, h80, HIMD_AUDIO_SIZE]
  · intro hne
    have hnn : getBytesPerFrame ci ≠ none := by
      obtain h0 | h1 | h80 := h
      · simp [getBytesPerFrame, h0]
      · cases hm : isMpeg ci.codecInfo
        · simp [getBytesPerFrame, h1, hm]
        · rcases hsam : getSamplesPerFrame ci with _ | s <;>
            rcases hsr : getSampleRate ci with _ | r <;>
            simp [getBytesPerFrame, h1, hm, hsam, hsr]
      · exact absurd h80 hne
    rcases hfs : getBytesPerFrame ci with _ | fs
    · exact absurd hfs hnn
    refine ⟨fs, rfl, ?_⟩
    by_cases h0 : fs = 0 <;> simp [getFramesPerBlock, hfs, h0, hne]

/-- C3, witness: the amended statement applied to a concrete LPCM track
(codec info as produced by generateCodecInfo) and to a concrete ATRAC3
track with codecInfo[2] = 24, i.e. 192 bytes per frame. -/
theorem getFramesPerBlock_spec_witness :
    (((0x80 : Nat) = 0 ∨ (0x80 : Nat) = 1 ∨ (0x80 : Nat) = 0x80) ∧
      getFramesPerBlock ⟨0x80, ![6, 40, 7, 0, 0]⟩ = some 255) ∧
    getFramesPerBlock ⟨0, ![2, 0x20, 24, 0, 0]⟩ = some (if (24 * 8 : Nat) = 0 then 0 else 0x3FBF / (24 * 8)) := by
  refine ⟨⟨by decide, (getFramesPerBlock_spec ⟨0x80, ![6, 40, 7, 0, 0]⟩ (by decide)).1 rfl⟩, ?_⟩
  obtain ⟨fs, hfs, hfr⟩ :=
    (getFramesPerBlock_spec ⟨0, ![2, 0x20, 24, 0, 0]⟩ (by decide)).2 (by decide)
  have : fs = 24 * 8 := by
    have h2 : getBytesPerFrame ⟨0, ![2, 0x20, 24, 0, 0]⟩ = some (24 * 8) := by decide
    rw [h2] at hfs
    exact (Option.some.injEq _ _ ▸ hfs).symm
  rw [← this]
  exact hfr

/-! ## Cipher primitives (src/encryption.ts) -/

/-- Modelled from the spec: single-block DES as provided by the external
crypto-js library (out of scope per spec paragraph 1; paragraph 4.1 uses it
as a primitive).  Keys and blocks are byte lists; only the block-cipher
properties on 8-byte blocks are assumed: encryption and decryption with
one key are mutually inverse length-preserving maps. -/
structure DESPrimitives where
  enc8 : List Nat → List Nat → List Nat
  dec8 : List Nat → List Nat → List Nat
  enc_len : ∀ k b, b.length = 8 → (enc8 k b).length = 8
  dec_len : ∀ k b, b.length = 8 → (dec8 k b).length = 8
  dec_enc : ∀ k b, b.length = 8 → dec8 k (enc8 k b) = b
  enc_dec : ∀ k b, b.length = 8 → enc8 k (dec8 k b) = b

/-- ECB mode: apply a single-block map to each 8-byte chunk.  The fuel
argument (instantiated with the data length, an upper bound on the number
of chunks) makes the recursion structural. -/
def ecbChunks (f : List Nat → List Nat) : Nat → List Nat → List Nat
  | 0, _ => []
  | fuel + 1, data =>
    if data.isEmpty then []
    else f (data.take 8) ++ ecbChunks f fuel (data.drop 8)

def desEcbEncrypt (des : DESPrimitives) (key data : List Nat) : List Nat :=
  ecbChunks (des.enc8 key) data.length data

def desEcbDecrypt (des : DESPrimitives) (key data : List Nat) : List Nat :=
  ecbChunks (des.dec8 key) data.length data

/-- Modelled from the spec: 3DES-ECB (encrypt-decrypt-encrypt) with a
24-byte key split into three 8-byte parts, as performed by
Crypto.TripleDES of crypto-js. -/
def tdesEcbEncrypt (des : DESPrimitives) (key data : List Nat) : List Nat :=
  desEcbEncrypt des ((key.drop 16).take 8)
    (desEcbDecrypt des ((key.drop 8).take 8)
      (desEcbEncrypt des (key.take 8) data))

def tdesEcbDecrypt (des : DESPrimitives) (key data : List Nat) : List Nat :=
  desEcbDecrypt des (key.take 8)
    (desEcbEncrypt des ((key.drop 8).take 8)
      (desEcbDecrypt des ((key.drop 16).take 8) data))

/-- EKBROOTS from src/encryption.ts: the sole entry, for EKB 0x00010012. -/
def EKBROOT : List Nat :=
  [0xf5, 0x1e, 0xcb, 0x2a, 0x80, 0x8f, 0x15, 0xfd,
   0x54, 0x2e, 0xf5, 0x12, 0x3b, 0xcd, 0xbc, 0xa4,
   0xf5, 0x1e, 0xcb, 0x2a, 0x80, 0x8f, 0x15, 0xfd]

def EKBROOTS (ekbNum : Nat) : Option (List Nat) :=
  if ekbNum = 0x00010012 then some EKBROOT else none

/-- MAIN_KEY from src/encryption.ts: the first 16 bytes of the EKB root. -/
def MAIN_KEY : List Nat := EKBROOT.take 16

/-- createTrackKey from src/encryption.ts: unknown EKB numbers raise a
HiMDError (the message keeps the typo of the source); otherwise the
encrypted key is 3DES-ECB-decrypted with the root and the first 8 bytes
are returned (wordArrayToByteArray with explicit length 8). -/
def createTrackKey (des : DESPrimitives) (ekbNum : Nat) (trackKey : List Nat) :
    Except String (List Nat) :=
  match EKBROOTS ekbNum with
  | none => Except.error "Requested decription with an unknown EKB"
  | some root => Except.ok ((tdesEcbDecrypt des root trackKey).take 8)

/-- encryptTrackKey from src/encryption.ts: 3DES-ECB with the
0x00010012 root, no padding. -/
def encryptTrackKey (des : DESPrimitives) (trackKey : List Nat) : List Nat :=
  tdesEcbEncrypt des EKBROOT trackKey

theorem ecbChunks_single (f : List Nat → List Nat) (b : List Nat) (h : b.length = 8) :
    ecbChunks f b.length b = f b := by
  match b, h with
  | b0 :: b1 :: b2 :: b3 :: b4 :: b5 :: b6 :: b7 :: [], _ =>
    simp [ecbChunks]

theorem desEcbEncrypt_single (des : DESPrimitives) (key b : List Nat) (h : b.length = 8) :
    desEcbEncrypt des key b = des.enc8 key b := by
  rw [desEcbEncrypt, ecbChunks_single _ _ h]

theorem desEcbDecrypt_single (des : DESPrimitives) (key b : List Nat) (h : b.length = 8) :
    desEcbDecrypt des key b = des.dec8 key b := by
  rw [desEcbDecrypt, ecbChunks_single _ _ h]

theorem tdes_round (des : DESPrimitives) (key b : List Nat) (h : b.length = 8) :
    tdesEcbDecrypt des key (tdesEcbEncrypt des key b) = b := by
  have h1 := des.enc_len (key.take 8) b h
  have h2 := des.dec_len ((key.drop 8).take 8) _ h1
  have h3 := des.enc_len ((key.drop 16).take 8) _ h2
  rw [tdesEcbEncrypt, tdesEcbDecrypt,
    desEcbEncrypt_single _ _ _ h, desEcbDecrypt_single _ _ _ h1,
    desEcbEncrypt_single _ _ _ h2, desEcbDecrypt_single _ _ _ h3,
    des.dec_enc _ _ h2, desEcbEncrypt_single _ _ _ h2, des.enc_dec _ _ h1,
    desEcbDecrypt_single _ _ _ h1, des.dec_enc _ _ h]

/-- C4: encrypting an 8-byte track key and unwrapping it with the same
(sole supported) EKB number 0x00010012 returns the original key, and
createTrackKey with any other EKB number fails with the unknown-EKB
error. -/
theorem createTrackKey_encryptTrackKey_roundtrip (des : DESPrimitives)
    (k : List Nat) (hk : k.length = 8) :
    createTrackKey des 0x00010012 (encryptTrackKey des k) = Except.ok k ∧
    ∀ ekbNum, ekbNum ≠ 0x00010012 →
      createTrackKey des ekbNum (encryptTrackKey des k) =
        Except.error "Requested decription with an unknown EKB" := by
  constructor
  · show Except.ok ((tdesEcbDecrypt des EKBROOT (tdesEcbEncrypt des EKBROOT k)).take 8) =
      Except.ok k
    rw [tdes_round des _ _ hk, ← hk, List.take_length]
  · intro ekbNum hne
    rw [createTrackKey]
    simp [EKBROOTS, hne]

/-- A concrete DESPrimitives instance (byte-wise xor with the key head
followed by reversal) for the closed witnesses. -/
def desWitness : DESPrimitives where
  enc8 := fun k b => (b.map (fun x => x ^^^ k.headD 0)).reverse
  dec8 := fun k b => b.reverse.map (fun x => x ^^^ k.headD 0)
  enc_len := by intro k b h; simp [h]
  dec_len := by intro k b h; simp [h]
  dec_enc := by
    intro k b h
    simp [Function.comp_def, Nat.xor_assoc]
  enc_dec := by
    intro k b h
    simp [Function.comp_def, List.map_reverse, Nat.xor_assoc]

/-- C4, witness: the round-trip theorem applied to a concrete DES
instance and a concrete 8-byte key. -/
theorem createTrackKey_encryptTrackKey_roundtrip_witness :
    ([1, 2, 3, 4, 5, 6, 7, 8] : List Nat).length = 8 ∧
    createTrackKey desWitness 0x00010012 (encryptTrackKey desWitness [1, 2, 3, 4, 5, 6, 7, 8]) =
      Except.ok [1, 2, 3, 4, 5, 6, 7, 8] ∧
    createTrackKey desWitness 0x00010013 (encryptTrackKey desWitness [1, 2, 3, 4, 5, 6, 7, 8]) =
      Except.error "Requested decription with an unknown EKB" :=
  ⟨by decide,
   (createTrackKey_encryptTrackKey_roundtrip desWitness _ (by decide)).1,
   (createTrackKey_encryptTrackKey_roundtrip desWitness _ (by decide)).2 0x00010013 (by decide)⟩

/-! ## Fragments, block streams (src/himd.ts, src/streams.ts) -/

/-- HiMDFragment from src/himd.ts. -/
structure HiMDFragment where
  key : List Nat
  firstBlock : Nat
  lastBlock : Nat
  firstFrame : Nat
  lastFrame : Nat
  fragmentType : Nat
  nextFragment : Nat
deriving DecidableEq

/-- HiMD.getFragment: parse the 0x10-byte fragment slot at
0x30000 + 0x10 * index of the TIF image. -/
def getFragment (tif : Buf) (index : Nat) : HiMDFragment :=
  let base := 0x30000 + 0x10 * index
  { key := (List.range 8).map (fun i => tif (base + i))
    firstBlock := getUint16 tif (base + 8)
    lastBlock := getUint16 tif (base + 10)
    firstFrame := tif (base + 12)
    lastFrame := tif (base + 13)
    fragmentType := tif (base + 14) >>> 4
    nextFragment := getUint16 tif (base + 14) &&& 0xfff }

/-- Fragment collection loop of HiMD.openBlockStream: follow nextFragment
links until 0.  The source loop is unbounded; fuel bounds it here, and
none models a chain that does not reach 0 within the given fuel. -/
def collectFragments (tif : Buf) : Nat → Nat → Option (List HiMDFragment)
  | fragmentNumber, 0 => if fragmentNumber = 0 then some [] else none
  | fragmentNumber, fuel + 1 =>
    if fragmentNumber = 0 then some []
    else
      match collectFragments tif (getFragment tif fragmentNumber).nextFragment fuel with
      | none => none
      | some rest => some (getFragment tif fragmentNumber :: rest)

/-- State of HiMDBlockStream from src/streams.ts (the file handle is
external and not part of the state). -/
structure HiMDBlockStream where
  fragments : List HiMDFragment
  framesPerBlock : Nat
  currentBlock : Nat
  currentFragment : Nat
deriving DecidableEq

/-- Constructor of HiMDBlockStream: it unconditionally evaluates
this.fragments[0].firstBlock.  On an empty fragment list, fragments[0] is
undefined in JavaScript and reading firstBlock from it raises a TypeError;
none models that runtime type error (distinct from a thrown HiMDError,
which is modelled by Except.error elsewhere in this file). -/
def mkHiMDBlockStream (fragments : List HiMDFragment) (framesPerBlock : Nat) :
    Option HiMDBlockStream :=
  match fragments with
  | [] => none
  | f :: _ =>
    some { fragments := fragments, framesPerBlock := framesPerBlock,
           currentBlock := f.firstBlock, currentFragment := 0 }

/-- C10: for a track with firstFragment = 0 (e.g. a freed slot) the
fragment-collection loop of openBlockStream yields the empty list, on
which the HiMDBlockStream constructor fails with a runtime type error
(none) rather than an empty stream or a HiMDError; and every successfully
constructed block stream has a non-empty fragment list and starts at the
first fragment's firstBlock. -/
theorem openBlockStream_firstFragment_zero (tif : Buf) (fuel fpb : Nat) :
    collectFragments tif 0 fuel = some [] ∧
    mkHiMDBlockStream [] fpb = none ∧
    (∀ frs fpb2 s, mkHiMDBlockStream frs fpb2 = some s →
      ∃ f rest, frs = f :: rest ∧ s.currentBlock = f.firstBlock ∧
        s.fragments = frs ∧ s.framesPerBlock = fpb2 ∧ s.currentFragment = 0) := by
  refine ⟨?_, rfl, ?_⟩
  · cases fuel <;> simp [collectFragments]
  · intro frs fpb2 s hs
    match frs, hs with
    | f :: rest, hs =>
      refine ⟨f, rest, rfl, ?_, ?_, ?_, ?_⟩ <;>
        simp [mkHiMDBlockStream] at hs <;> simp [← hs]

/-- C10, witness: the theorem applied to a concrete one-fragment list. -/
theorem openBlockStream_firstFragment_zero_witness :
    mkHiMDBlockStream
        [{ key := [], firstBlock := 7, lastBlock := 9, firstFrame := 0,
           lastFrame := 1, fragmentType := 0, nextFragment := 0 }] 5 =
      some { fragments := [{ key := [], firstBlock := 7, lastBlock := 9, firstFrame := 0,
                             lastFrame := 1, fragmentType := 0, nextFragment := 0 }],
             framesPerBlock := 5, currentBlock := 7, currentFragment := 0 } ∧
    ∃ (f : HiMDFragment) (rest : List HiMDFragment),
      [{ key := ([] : List Nat), firstBlock := 7, lastBlock := 9, firstFrame := 0,
         lastFrame := 1, fragmentType := 0, nextFragment := 0 }] = f :: rest ∧
      (7 : Nat) = f.firstBlock := by
  constructor
  · rfl
  · obtain ⟨f, rest, h1, h2, -⟩ :=
      (openBlockStream_firstFragment_zero (fun _ => 0) 0 0).2.2
        [{ key := [], firstBlock := 7, lastBlock := 9, firstFrame := 0,
           lastFrame := 1, fragmentType := 0, nextFragment := 0 }] 5
        { fragments := [{ key := [], firstBlock := 7, lastBlock := 9, firstFrame := 0,
                          lastFrame := 1, fragmentType := 0, nextFragment := 0 }],
          framesPerBlock := 5, currentBlock := 7, currentFragment := 0 } rfl
    exact ⟨f, rest, h1, h2⟩

/-! ## HiMDMP3Stream.readBlock (src/streams.ts) -/

/-- Result record of HiMDMP3Stream.readBlock.  Frame counters are Int
because the block stream computes lastFrame as fragment.lastFrame - 1 (or
be16(block[4]) - 1) for MPEG tracks, which can be negative in
JavaScript. -/
structure MP3BlockResult where
  block : List Nat
  framesCount : Int
deriving DecidableEq

/-- HiMDMP3Stream.readBlock from src/streams.ts, applied to one
already-read result record of the underlying block stream (block bytes,
firstFrame, lastFrame) and to the 4-byte MP3 key of the stream.  The
in-place XOR loop over block[0x20 .. 0x20 + (dataBytes & ~7)) and the
returned subarray block[0x20 .. 0x20 + dataBytes) become the list below;
dataBytes & ~7 is dataBytes &&& 0xFFFFFFF8 under 32-bit semantics. -/
def himdMP3ReadBlock (key block : Buf) (firstFrame lastFrame : Int) :
    Except String MP3BlockResult :=
  if firstFrame > lastFrame then Except.error "LastFrame > FirstFrame"
  else
    let dataFrames := getUint16 block 4
    let dataBytes := getUint16 block 8
    if dataBytes > HIMD_AUDIO_SIZE then
      Except.error ("Block contains " ++ toString dataBytes ++ " bytes of MPEG data - too much")
    else if lastFrame ≥ (dataFrames : Int) then
      Except.error ("Last requrested frame " ++ toString lastFrame ++
        " past number of frames " ++ toString dataFrames)
    else
      Except.ok
        { block := (List.range dataBytes).map (fun i =>
            if i < dataBytes &&& 0xFFFFFFF8 then block (0x20 + i) ^^^ key (i &&& 3)
            else block (0x20 + i))
          framesCount := lastFrame - firstFrame + 1 }

/-- C7: readBlock of the MP3 stream fails exactly when firstFrame is past
lastFrame, or the payload byte count be16(block[8]) exceeds 0x3FC0, or
lastFrame is not below the frame count be16(block[4]); otherwise it
returns the dataBytes payload bytes starting at block offset 0x20, with
the first dataBytes & ~7 of them XORed against the 4-byte key repeated,
and framesCount = lastFrame - firstFrame + 1. -/
theorem himdMP3ReadBlock_spec (key block : Buf) (firstFrame lastFrame : Int) :
    ((∃ msg, himdMP3ReadBlock key block firstFrame lastFrame = Except.error msg) ↔
      (firstFrame > lastFrame ∨ getUint16 block 8 > 0x3FC0 ∨
        lastFrame ≥ (getUint16 block 4 : Int))) ∧
    (∀ res, himdMP3ReadBlock key block firstFrame lastFrame = Except.ok res →
      res.framesCount = lastFrame - firstFrame + 1 ∧
      res.block.length = getUint16 block 8 ∧
      ∀ i, i < getUint16 block 8 →
        res.block.getD i 0 =
          if i < getUint16 block 8 &&& 0xFFFFFFF8 then block (0x20 + i) ^^^ key (i &&& 3)
          else block (0x20 + i)) := by
  constructor
  · constructor
    · intro ⟨msg, hmsg⟩
      by_cases h1 : firstFrame > lastFrame
      · exact Or.inl h1
      by_cases h2 : getUint16 block 8 > HIMD_AUDIO_SIZE
      · exact Or.inr (Or.inl h2)
      by_cases h3 : lastFrame ≥ (getUint16 block 4 : Int)
      · exact Or.inr (Or.inr h3)
      · rw [himdMP3ReadBlock, if_neg h1] at hmsg
        simp only [if_neg h2, if_neg h3] at hmsg
        exact absurd hmsg (by simp)
    · intro h
      rw [himdMP3ReadBlock]
      by_cases h1 : firstFrame > lastFrame
      · exact ⟨_, by rw [if_pos h1]⟩
      rw [if_neg h1]
      by_cases h2 : getUint16 block 8 > HIMD_AUDIO_SIZE
      · exact ⟨"Block contains " ++ toString (getUint16 block 8) ++ " bytes of MPEG data - too much",
          by simp only [if_pos h2]⟩
      by_cases h3 : lastFrame ≥ (getUint16 block 4 : Int)
      · exact ⟨"Last requrested frame " ++ toString lastFrame ++ " past number of frames " ++
            toString (getUint16 block 4),
          by simp only [if_neg h2, if_pos h3]⟩
      · rcases h with h | h | h
        · exact absurd h h1
        · exact absurd h h2
        · exact absurd h h3
  · intro res hres
    rw [himdMP3ReadBlock] at hres
    by_cases h1 : firstFrame > lastFrame
    · rw [if_pos h1] at hres; exact absurd hres (by simp)
    rw [if_neg h1] at hres
    by_cases h2 : getUint16 block 8 > HIMD_AUDIO_SIZE
    · simp only [if_pos h2] at hres
      exact absurd hres (by simp)
    by_cases h3 : lastFrame ≥ (getUint16 block 4 : Int)
    · simp only [if_neg h2, if_pos h3] at hres
      exact absurd hres (by simp)
    simp only [if_neg h2, if_neg h3, Except.ok.injEq] at hres
    subst hres
    refine ⟨rfl, by simp, ?_⟩
    intro i hi
    rw [List.getD_eq_getElem?_getD]
    rw [List.getElem?_map]
    simp [List.getElem?_range hi]

/-- C7, witness: the characterization applied to a concrete block (frame
count 2 at offset 4, payload length 9 at offset 8, payload bytes 0xAA)
and the concrete key [1,2,3,4]. -/
theorem himdMP3ReadBlock_spec_witness :
    (himdMP3ReadBlock (fun i => [1, 2, 3, 4].getD i 0)
        (fun i => if i = 5 then 2 else if i = 9 then 9 else if 0x20 ≤ i ∧ i < 0x30 then 0xAA else 0)
        0 1 =
      Except.ok
        { block := [0xAB, 0xA8, 0xA9, 0xAE, 0xAB, 0xA8, 0xA9, 0xAE, 0xAA]
          framesCount := 2 }) ∧
    ((fun res : MP3BlockResult =>
        res.framesCount = 1 - 0 + 1 ∧ res.block.length = 9 ∧ True)
      { block := [0xAB, 0xA8, 0xA9, 0xAE, 0xAB, 0xA8, 0xA9, 0xAE, 0xAA]
        framesCount := 2 }) := by
  have hok : himdMP3ReadBlock (fun i => [1, 2, 3, 4].getD i 0)
      (fun i => if i = 5 then 2 else if i = 9 then 9 else if 0x20 ≤ i ∧ i < 0x30 then 0xAA else 0)
      0 1 =
      Except.ok
        { block := [0xAB, 0xA8, 0xA9, 0xAE, 0xAB, 0xA8, 0xA9, 0xAE, 0xAA]
          framesCount := 2 } := by rfl
  refine ⟨hok, ?_, ?_, trivial⟩
  · exact ((himdMP3ReadBlock_spec (fun i => [1, 2, 3, 4].getD i 0)
      (fun i => if i = 5 then 2 else if i = 9 then 9 else if 0x20 ≤ i ∧ i < 0x30 then 0xAA else 0)
      0 1).2 _ hok).1
  · exact ((himdMP3ReadBlock_spec (fun i => [1, 2, 3, 4].getD i 0)
      (fun i => if i = 5 then 2 else if i = 9 then 9 else if 0x20 ≤ i ∧ i < 0x30 then 0xAA else 0)
      0 1).2 _ hok).2.1

/-! ## DOS timestamps (src/himd.ts) -/

/-- DOSTime from src/himd.ts.  The month is Int because parseDOSTime
subtracts 1 from the raw month field, which yields -1 in JavaScript when
the field is zero (e.g. DOSTIME_NULL). -/
@[ext] structure DOSTime where
  second : Nat
  minute : Nat
  hour : Nat
  day : Nat
  month : Int
  year : Nat
deriving DecidableEq

/-- parseDOSTime from src/himd.ts.  Note the hour mask 0xf100 of the
source (not 0xf800): bit 11 of the packed time is dropped, so odd hours
lose their low bit. -/
def parseDOSTime (raw : Buf) (offset : Nat) : DOSTime :=
  let time := getUint16 raw (2 + offset)
  let date := getUint16 raw (0 + offset)
  { second := (time &&& 0x1f) * 2
    minute := (time &&& 0x7e0) >>> 5
    hour := (time &&& 0xf100) >>> 11
    day := date &&& 0x1f
    month := (((date &&& 0x1e0) >>> 5 : Nat) : Int) - 1
    year := ((date &&& 0xfe00) >>> 9) + 80 }

/-- Packed date word of serializeDosTime:
day | ((month + 1) << 5) | ((year - 80) << 9).  Int.toNat and Nat
subtraction agree with the JavaScript bitwise coercions for month >= -1
and year >= 80, the ranges produced by parseDOSTime and by DOS times. -/
def dosDateWord (t : DOSTime) : Nat :=
  t.day ||| (((t.month + 1).toNat) <<< 5) ||| ((t.year - 80) <<< 9)

/-- Packed time word of serializeDosTime:
(second / 2) | (minute << 5) | (hour << 11); the JavaScript float division
second / 2 is truncated by the bitwise or, hence Nat division. -/
def dosTimeWord (t : DOSTime) : Nat :=
  (t.second / 2) ||| (t.minute <<< 5) ||| (t.hour <<< 11)

/-- serializeDosTime from src/himd.ts, fused with the rawBuffer.set copy
of writeTrack: the four produced bytes are stored at offset (date word)
and offset + 2 (time word). -/
def serializeDosTime (t : DOSTime) (data : Buf) (offset : Nat) : Buf :=
  setUint16 (setUint16 data (dosDateWord t) offset) (dosTimeWord t) (offset + 2)

/-! ## Track slots (src/himd.ts) -/

/-- HiMDRawTrack from src/himd.ts.  Byte arrays of fixed length (key, mac,
contentId, codecInfo) are total maps from Fin n; ekbNumber is Int because
getUint32 has signed 32-bit semantics; codecId is the raw byte. -/
@[ext] structure HiMDRawTrack where
  recordingTime : DOSTime
  ekbNumber : Int
  titleIndex : Nat
  artistIndex : Nat
  albumIndex : Nat
  trackInAlbum : Nat
  key : Fin 8 → Nat
  mac : Fin 8 → Nat
  codecId : Nat
  codecInfo : Fin 5 → Nat
  firstFragment : Nat
  trackNumber : Nat
  seconds : Nat
  lt : Nat
  dest : Nat
  contentId : Fin 20 → Nat
  licenseStartTime : DOSTime
  licenseEndTime : DOSTime
  xcc : Nat
  ct : Nat
  cc : Nat
  cn : Nat
deriving DecidableEq

/-- HiMD.getTrack: parse the 0x50-byte track slot at
0x8000 + 0x50 * trackSlotIndex (the source asserts the slot is in
[0, 2047]).  codecInfo is reassembled from bytes 33..35 and 44..45. -/
def getTrack (tif : Buf) (trackSlotIndex : Nat) : HiMDRawTrack :=
  let b := 0x8000 + 0x50 * trackSlotIndex
  { recordingTime := parseDOSTime tif (b + 0)
    ekbNumber := getUint32 tif (b + 4)
    titleIndex := getUint16 tif (b + 8)
    artistIndex := getUint16 tif (b + 10)
    albumIndex := getUint16 tif (b + 12)
    trackInAlbum := tif (b + 14)
    key := fun i => tif (b + (16 + i.val))
    mac := fun i => tif (b + (24 + i.val))
    codecId := tif (b + 32)
    codecInfo := fun i => if i.val < 3 then tif (b + (33 + i.val)) else tif (b + (44 + (i.val - 3)))
    firstFragment := getUint16 tif (b + 36)
    trackNumber := getUint16 tif (b + 38)
    seconds := getUint16 tif (b + 40)
    lt := tif (b + 42)
    dest := tif (b + 43)
    contentId := fun i => tif (b + (48 + i.val))
    licenseStartTime := parseDOSTime tif (b + 68)
    licenseEndTime := parseDOSTime tif (b + 72)
    xcc := tif (b + 76)
    ct := tif (b + 77)
    cc := tif (b + 78)
    cn := tif (b + 79) }

/-- HiMD.writeTrack, parameterised by the base offset of the 0x50-byte
destination window (writeTrack proper passes the slot base; the writeTo
variant used by the secure session passes 0 on a fresh buffer).  The
writes are in source order; bytes 15, 46 and 47 are not written. -/
def writeTrackAt (data : Buf) (b : Nat) (t : HiMDRawTrack) : Buf :=
  let d := serializeDosTime t.recordingTime data (b + 0)
  let d := setUint32 d t.ekbNumber (b + 4)
  let d := setUint16 d t.titleIndex (b + 8)
  let d := setUint16 d t.artistIndex (b + 10)
  let d := setUint16 d t.albumIndex (b + 12)
  let d := setByte d (b + 14) t.trackInAlbum
  let d := setByte d (b + 16) (t.key 0)
  let d := setByte d (b + 17) (t.key 1)
  let d := setByte d (b + 18) (t.key 2)
  let d := setByte d (b + 19) (t.key 3)
  let d := setByte d (b + 20) (t.key 4)
  let d := setByte d (b + 21) (t.key 5)
  let d := setByte d (b + 22) (t.key 6)
  let d := setByte d (b + 23) (t.key 7)
  let d := setByte d (b + 24) (t.mac 0)
  let d := setByte d (b + 25) (t.mac 1)
  let d := setByte d (b + 26) (t.mac 2)
  let d := setByte d (b + 27) (t.mac 3)
  let d := setByte d (b + 28) (t.mac 4)
  let d := setByte d (b + 29) (t.mac 5)
  let d := setByte d (b + 30) (t.mac 6)
  let d := setByte d (b + 31) (t.mac 7)
  let d := setByte d (b + 32) t.codecId
  let d := setByte d (b + 33) (t.codecInfo 0)
  let d := setByte d (b + 34) (t.codecInfo 1)
  let d := setByte d (b + 35) (t.codecInfo 2)
  let d := setByte d (b + 44) (t.codecInfo 3)
  let d := setByte d (b + 45) (t.codecInfo 4)
  let d := setUint16 d t.firstFragment (b + 36)
  let d := setUint16 d t.trackNumber (b + 38)
  let d := setUint16 d t.seconds (b + 40)
  let d := setByte d (b + 48) (t.contentId 0)
  let d := setByte d (b + 49) (t.contentId 1)
  let d := setByte d (b + 50) (t.contentId 2)
  let d := setByte d (b + 51) (t.contentId 3)
  let d := setByte d (b + 52) (t.contentId 4)
  let d := setByte d (b + 53) (t.contentId 5)
  let d := setByte d (b + 54) (t.contentId 6)
  let d := setByte d (b + 55) (t.contentId 7)
  let d := setByte d (b + 56) (t.contentId 8)
  let d := setByte d (b + 57) (t.contentId 9)
  let d := setByte d (b + 58) (t.contentId 10)
  let d := setByte d (b + 59) (t.contentId 11)
  let d := setByte d (b + 60) (t.contentId 12)
  let d := setByte d (b + 61) (t.contentId 13)
  let d := setByte d (b + 62) (t.contentId 14)
  let d := setByte d (b + 63) (t.contentId 15)
  let d := setByte d (b + 64) (t.contentId 16)
  let d := setByte d (b + 65) (t.contentId 17)
  let d := setByte d (b + 66) (t.contentId 18)
  let d := setByte d (b + 67) (t.contentId 19)
  let d := serializeDosTime t.licenseStartTime d (b + 68)
  let d := serializeDosTime t.licenseEndTime d (b + 72)
  let d := setByte d (b + 42) t.lt
  let d := setByte d (b + 43) t.dest
  let d := setByte d (b + 76) t.xcc
  let d := setByte d (b + 77) t.ct
  let d := setByte d (b + 78) t.cc
  let d := setByte d (b + 79) t.cn
  d

/-- Normal form of one byte of the writeTrackAt result: the value stored
at window offset k (in reverse write order), or the previous byte for the
unwritten offsets (15, 46, 47 and everything outside the window). -/
def trackByte (data : Buf) (b : Nat) (t : HiMDRawTrack) (k : Nat) : Nat :=
  if k = 79 then t.cn % 256 else
  if k = 78 then t.cc % 256 else
  if k = 77 then t.ct % 256 else
  if k = 76 then t.xcc % 256 else
  if k = 43 then t.dest % 256 else
  if k = 42 then t.lt % 256 else
  if k = 75 then (dosTimeWord t.licenseEndTime &&& 255) % 256 else
  if k = 74 then (dosTimeWord t.licenseEndTime >>> 8 &&& 255) % 256 else
  if k = 73 then (dosDateWord t.licenseEndTime &&& 255) % 256 else
  if k = 72 then (dosDateWord t.licenseEndTime >>> 8 &&& 255) % 256 else
  if k = 71 then (dosTimeWord t.licenseStartTime &&& 255) % 256 else
  if k = 70 then (dosTimeWord t.licenseStartTime >>> 8 &&& 255) % 256 else
  if k = 69 then (dosDateWord t.licenseStartTime &&& 255) % 256 else
  if k = 68 then (dosDateWord t.licenseStartTime >>> 8 &&& 255) % 256 else
  if k = 67 then t.contentId 19 % 256 else
  if k = 66 then t.contentId 18 % 256 else
  if k = 65 then t.contentId 17 % 256 else
  if k = 64 then t.contentId 16 % 256 else
  if k = 63 then t.contentId 15 % 256 else
  if k = 62 then t.contentId 14 % 256 else
  if k = 61 then t.contentId 13 % 256 else
  if k = 60 then t.contentId 12 % 256 else
  if k = 59 then t.contentId 11 % 256 else
  if k = 58 then t.contentId 10 % 256 else
  if k = 57 then t.contentId 9 % 256 else
  if k = 56 then t.contentId 8 % 256 else
  if k = 55 then t.contentId 7 % 256 else
  if k = 54 then t.contentId 6 % 256 else
  if k = 53 then t.contentId 5 % 256 else
  if k = 52 then t.contentId 4 % 256 else
  if k = 51 then t.contentId 3 % 256 else
  if k = 50 then t.contentId 2 % 256 else
  if k = 49 then t.contentId 1 % 256 else
  if k = 48 then t.contentId 0 % 256 else
  if k = 41 then (t.seconds &&& 255) % 256 else
  if k = 40 then (t.seconds >>> 8 &&& 255) % 256 else
  if k = 39 then (t.trackNumber &&& 255) % 256 else
  if k = 38 then (t.trackNumber >>> 8 &&& 255) % 256 else
  if k = 37 then (t.firstFragment &&& 255) % 256 else
  if k = 36 then (t.firstFragment >>> 8 &&& 255) % 256 else
  if k = 45 then t.codecInfo 4 % 256 else
  if k = 44 then t.codecInfo 3 % 256 else
  if k = 35 then t.codecInfo 2 % 256 else
  if k = 34 then t.codecInfo 1 % 256 else
  if k = 33 then t.codecInfo 0 % 256 else
  if k = 32 then t.codecId % 256 else
  if k = 31 then t.mac 7 % 256 else
  if k = 30 then t.mac 6 % 256 else
  if k = 29 then t.mac 5 % 256 else
  if k = 28 then t.mac 4 % 256 else
  if k = 27 then t.mac 3 % 256 else
  if k = 26 then t.mac 2 % 256 else
  if k = 25 then t.mac 1 % 256 else
  if k = 24 then t.mac 0 % 256 else
  if k = 23 then t.key 7 % 256 else
  if k = 22 then t.key 6 % 256 else
  if k = 21 then t.key 5 % 256 else
  if k = 20 then t.key 4 % 256 else
  if k = 19 then t.key 3 % 256 else
  if k = 18 then t.key 2 % 256 else
  if k = 17 then t.key 1 % 256 else
  if k = 16 then t.key 0 % 256 else
  if k = 14 then t.trackInAlbum % 256 else
  if k = 13 then (t.albumIndex &&& 255) % 256 else
  if k = 12 then (t.albumIndex >>> 8 &&& 255) % 256 else
  if k = 11 then (t.artistIndex &&& 255) % 256 else
  if k = 10 then (t.artistIndex >>> 8 &&& 255) % 256 else
  if k = 9 then (t.titleIndex &&& 255) % 256 else
  if k = 8 then (t.titleIndex >>> 8 &&& 255) % 256 else
  if k = 7 then ((t.ekbNumber % (2 ^ 32 : Int)).toNat &&& 255) % 256 else
  if k = 6 then ((t.ekbNumber % (2 ^ 32 : Int)).toNat >>> 8 &&& 255) % 256 else
  if k = 5 then ((t.ekbNumber % (2 ^ 32 : Int)).toNat >>> 16 &&& 255) % 256 else
  if k = 4 then ((t.ekbNumber % (2 ^ 32 : Int)).toNat >>> 24 &&& 255) % 256 else
  if k = 3 then (dosTimeWord t.recordingTime &&& 255) % 256 else
  if k = 2 then (dosTimeWord t.recordingTime >>> 8 &&& 255) % 256 else
  if k = 1 then (dosDateWord t.recordingTime &&& 255) % 256 else
  if k = 0 then (dosDateWord t.recordingTime >>> 8 &&& 255) % 256 else
  data (b + k)

/-- One-pass characterization of writeTrackAt, read at window offset k. -/
theorem writeTrackAt_read (data : Buf) (b : Nat) (t : HiMDRawTrack) (k : Nat) :
    writeTrackAt data b t (b + k) = trackByte data b t k := by
  simp only [writeTrackAt, serializeDosTime, setUint16, setUint32, setByte,
    Nat.add_assoc, Nat.zero_add, Nat.reduceAdd, Nat.add_left_cancel_iff, trackByte]

/-- HiMD.writeTrack at a track slot. -/
def writeTrack (tif : Buf) (trackSlotIndex : Nat) (t : HiMDRawTrack) : Buf :=
  writeTrackAt tif (0x8000 + 0x50 * trackSlotIndex) t

/-- An in-place fill(0) over a byte range (Uint8Array.prototype.fill). -/
def fillZero (data : Buf) (base len : Nat) : Buf :=
  fun i => if base ≤ i ∧ i < base + len then 0 else data i

/-- HiMD.removeTrack from src/himd.ts: link the slot at the head of the
freelist, zero the whole 0x50-byte slot, then store the removed record's
firstFragment into the 2-byte field at slot offset 38 (0x26).  The source
also assigns freelist.trackNumber into the parsed trackToFree record, but
that record is only consulted for firstFragment afterwards. -/
def removeTrack (tif : Buf) (trackIndex : Nat) : Buf :=
  let freelistTrack := getTrack tif 0
  let trackToFree := getTrack tif trackIndex
  let tif1 := writeTrack tif 0 { freelistTrack with trackNumber := trackIndex }
  let b := 0x8000 + 0x50 * trackIndex
  let tif2 := fillZero tif1 b 0x50
  setUint16 tif2 trackToFree.firstFragment (b + 38)

/-- HiMD.addTrack from src/himd.ts: pop the freelist head, stamp the new
slot index into the record, write both slots, return the slot index. -/
def addTrack (tif : Buf) (track : HiMDRawTrack) : Buf × Nat :=
  let freelistTrack := getTrack tif 0
  let newTrackIndex := freelistTrack.trackNumber
  let freeTrackObject := getTrack tif newTrackIndex
  let tif1 := writeTrack tif 0 { freelistTrack with trackNumber := freeTrackObject.trackNumber }
  let tif2 := writeTrack tif1 newTrackIndex { track with trackNumber := newTrackIndex }
  (tif2, newTrackIndex)

/-- HiMD.writeFragment from src/himd.ts.  The raw.set(fragment.key, 0)
copy is modelled as eight byte stores (the fragment records used by the
library always carry 8-byte keys). -/
def writeFragment (tif : Buf) (index : Nat) (f : HiMDFragment) : Buf :=
  let b := 0x30000 + 0x10 * index
  let d := setByte tif (b + 0) (f.key.getD 0 0)
  let d := setByte d (b + 1) (f.key.getD 1 0)
  let d := setByte d (b + 2) (f.key.getD 2 0)
  let d := setByte d (b + 3) (f.key.getD 3 0)
  let d := setByte d (b + 4) (f.key.getD 4 0)
  let d := setByte d (b + 5) (f.key.getD 5 0)
  let d := setByte d (b + 6) (f.key.getD 6 0)
  let d := setByte d (b + 7) (f.key.getD 7 0)
  let d := setUint16 d f.firstBlock (b + 8)
  let d := setUint16 d f.lastBlock (b + 10)
  let d := setByte d (b + 12) f.firstFrame
  let d := setByte d (b + 13) f.lastFrame
  let temp := (f.fragmentType <<< 12) ||| (f.nextFragment &&& 0xfff)
  setUint16 d temp (b + 14)

/-- HiMD.addFragment from src/himd.ts: pop the head of the fragment
freelist at slot 0, write the new fragment there, return its index. -/
def addFragment (tif : Buf) (fragment : HiMDFragment) : Buf × Nat :=
  let freelistFragment := getFragment tif 0
  let newFragmentIndex := freelistFragment.nextFragment
  let newFragment := getFragment tif newFragmentIndex
  let tif1 := writeFragment tif 0 { freelistFragment with nextFragment := newFragment.nextFragment }
  let tif2 := writeFragment tif1 newFragmentIndex fragment
  (tif2, newFragmentIndex)

/-! ## Round-trip lemmas for the byte packing -/

theorem mask_ff_mod (x : Nat) : (x &&& 0xff) % 256 = x &&& 0xff :=
  Nat.mod_eq_of_lt (Nat.and_lt_two_pow x (show (0xff : Nat) < 2 ^ 8 by norm_num))

theorem shiftRight_and_distrib (x y k : Nat) :
    (x &&& y) >>> k = (x >>> k) &&& (y >>> k) := by
  apply Nat.eq_of_testBit_eq
  intro i
  simp [Nat.testBit_shiftRight, Nat.testBit_and, Nat.add_assoc]

theorem and_0x1e_halves : ∀ h : Fin 32, h.val &&& 0x1e = h.val / 2 * 2 := by decide

theorem and_0x1e_halves_nat (h : Nat) (hh : h < 32) : h &&& 0x1e = h / 2 * 2 :=
  and_0x1e_halves ⟨h, hh⟩

theorem dosTimeWord_eq (t : DOSTime) (hs : t.second < 64) (hm : t.minute < 64)
    (hh : t.hour < 32) :
    dosTimeWord t = 2048 * t.hour + 32 * t.minute + t.second / 2 := by
  rw [dosTimeWord,
    lor_lo_eq_add_of_lt t.minute 5 (show t.second / 2 < 2 ^ 5 by omega),
    lor_lo_eq_add_of_lt t.hour 11 (show t.minute * 2 ^ 5 + t.second / 2 < 2 ^ 11 by omega)]
  omega

theorem dosDateWord_eq (t : DOSTime) (hd : t.day < 32) (hmo : (t.month + 1).toNat < 16)
    (hy : t.year - 80 < 128) :
    dosDateWord t = 512 * (t.year - 80) + 32 * (t.month + 1).toNat + t.day := by
  rw [dosDateWord,
    lor_lo_eq_add_of_lt (t.month + 1).toNat 5 (show t.day < 2 ^ 5 by omega),
    lor_lo_eq_add_of_lt (t.year - 80) 9
      (show (t.month + 1).toNat * 2 ^ 5 + t.day < 2 ^ 9 by omega)]
  omega

theorem dosTimeWord_lt (t : DOSTime) (hs : t.second < 64) (hm : t.minute < 64)
    (hh : t.hour < 32) : dosTimeWord t < 2 ^ 16 := by
  rw [dosTimeWord_eq t hs hm hh]
  omega

theorem dosDateWord_lt (t : DOSTime) (hd : t.day < 32) (hmo : (t.month + 1).toNat < 16)
    (hy : t.year - 80 < 128) : dosDateWord t < 2 ^ 16 := by
  rw [dosDateWord_eq t hd hmo hy]
  omega

/-- DOS-range side conditions for a timestamp as stored on disc; the even
hour is the extra condition forced by the 0xf100 hour mask of
parseDOSTime. -/
def DOSFits (t : DOSTime) : Prop :=
  t.second % 2 = 0 ∧ t.second < 60 ∧ t.minute < 60 ∧ t.hour < 24 ∧
  t.day < 32 ∧ -1 ≤ t.month ∧ t.month < 12 ∧ 80 ≤ t.year ∧ t.year < 208

/-- Parsing the two serialized DOS words recovers the timestamp, for
in-range fields with an even hour. -/
theorem parse_dos_words (t : DOSTime) (hf : DOSFits t) (heven : t.hour % 2 = 0) :
    ((dosTimeWord t &&& 0x1f) * 2 = t.second) ∧
    ((dosTimeWord t &&& 0x7e0) >>> 5 = t.minute) ∧
    ((dosTimeWord t &&& 0xf100) >>> 11 = t.hour) ∧
    (dosDateWord t &&& 0x1f = t.day) ∧
    ((((dosDateWord t &&& 0x1e0) >>> 5 : Nat) : Int) - 1 = t.month) ∧
    (((dosDateWord t &&& 0xfe00) >>> 9) + 80 = t.year) := by
  obtain ⟨h2, hs, hm, hh, hd, hmo1, hmo2, hy1, hy2⟩ := hf
  have hmo : (t.month + 1).toNat < 16 := by omega
  have hW := dosTimeWord_eq t (by omega) (by omega) (by omega)
  have hD := dosDateWord_eq t hd hmo (by omega)
  refine ⟨?_, ?_, ?_, ?_, ?_, ?_⟩
  · rw [show (0x1f : Nat) = 2 ^ 5 - 1 by norm_num, Nat.and_pow_two_sub_one_eq_mod, hW]
    omega
  · rw [shiftRight_and_distrib, show (0x7e0 : Nat) >>> 5 = 2 ^ 6 - 1 by decide,
      Nat.and_pow_two_sub_one_eq_mod, Nat.shiftRight_eq_div_pow, hW]
    omega
  · rw [shiftRight_and_distrib, show (0xf100 : Nat) >>> 11 = 0x1e by decide,
      Nat.shiftRight_eq_div_pow, hW]
    have hq : (2048 * t.hour + 32 * t.minute + t.second / 2) / 2 ^ 11 = t.hour := by omega
    rw [hq, and_0x1e_halves_nat t.hour (by omega)]
    omega
  · rw [show (0x1f : Nat) = 2 ^ 5 - 1 by norm_num, Nat.and_pow_two_sub_one_eq_mod, hD]
    omega
  · rw [shiftRight_and_distrib, show (0x1e0 : Nat) >>> 5 = 2 ^ 4 - 1 by decide,
      Nat.and_pow_two_sub_one_eq_mod, Nat.shiftRight_eq_div_pow, hD]
    have hq : (512 * (t.year - 80) + 32 * (t.month + 1).toNat + t.day) / 2 ^ 5 % 2 ^ 4 =
        (t.month + 1).toNat := by omega
    rw [hq]
    omega
  · rw [shiftRight_and_distrib, show (0xfe00 : Nat) >>> 9 = 2 ^ 7 - 1 by decide,
      Nat.and_pow_two_sub_one_eq_mod, Nat.shiftRight_eq_div_pow, hD]
    omega

theorem lor_eq_add_of_aligned {a b k : Nat} (ha : a % 2 ^ k = 0) (hb : b < 2 ^ k) :
    a ||| b = a + b := by
  obtain ⟨c, rfl⟩ := Nat.dvd_of_mod_eq_zero ha
  exact (Nat.mul_add_lt_is_or hb c).symm

theorem mask_ff_eq_mod (x : Nat) : x &&& 0xff = x % 2 ^ 8 := by
  rw [show (0xff : Nat) = 2 ^ 8 - 1 by norm_num, Nat.and_pow_two_sub_one_eq_mod]

/-- Reassembling a 32-bit value from its four big-endian bytes. -/
theorem uint32_reassemble {w : Nat} (h : w < 2 ^ 32) :
    ((((w >>> 24) &&& 0xff) <<< 24) ||| (((w >>> 16) &&& 0xff) <<< 16) |||
      (((w >>> 8) &&& 0xff) <<< 8) ||| (w &&& 0xff)) = w := by
  simp only [mask_ff_eq_mod, Nat.shiftRight_eq_div_pow, Nat.shiftLeft_eq]
  have e1 : (w / 2 ^ 24 % 2 ^ 8 * 2 ^ 24) ||| (w / 2 ^ 16 % 2 ^ 8 * 2 ^ 16) =
      w / 2 ^ 24 % 2 ^ 8 * 2 ^ 24 + w / 2 ^ 16 % 2 ^ 8 * 2 ^ 16 :=
    lor_eq_add_of_aligned (k := 24) (by omega) (by omega)
  rw [e1]
  have e2 : (w / 2 ^ 24 % 2 ^ 8 * 2 ^ 24 + w / 2 ^ 16 % 2 ^ 8 * 2 ^ 16) |||
      (w / 2 ^ 8 % 2 ^ 8 * 2 ^ 8) =
      w / 2 ^ 24 % 2 ^ 8 * 2 ^ 24 + w / 2 ^ 16 % 2 ^ 8 * 2 ^ 16 + w / 2 ^ 8 % 2 ^ 8 * 2 ^ 8 :=
    lor_eq_add_of_aligned (k := 16) (by omega) (by omega)
  rw [e2]
  have e3 : (w / 2 ^ 24 % 2 ^ 8 * 2 ^ 24 + w / 2 ^ 16 % 2 ^ 8 * 2 ^ 16 +
      w / 2 ^ 8 % 2 ^ 8 * 2 ^ 8) ||| (w % 2 ^ 8) =
      w / 2 ^ 24 % 2 ^ 8 * 2 ^ 24 + w / 2 ^ 16 % 2 ^ 8 * 2 ^ 16 +
        w / 2 ^ 8 % 2 ^ 8 * 2 ^ 8 + w % 2 ^ 8 :=
    lor_eq_add_of_aligned (k := 8) (by omega) (by omega)
  rw [e3]
  omega

/-- In-range byte values survive the Uint8Array store. -/
theorem byte_mod (x : Nat) (h : x < 256) : x % 256 = x := Nat.mod_eq_of_lt h

/-- Reading through a single byte store at the same window base: the two
literal deltas decide the outcome. -/
theorem setByte_app (data : Buf) (b j v k : Nat) :
    setByte data (b + j) v (b + k) = if j = k then v % 256 else data (b + k) := by
  unfold setByte
  by_cases h : j = k
  · simp [h]
  · rw [if_neg (by omega), if_neg h]

/-- Normalization of the 2 + offset read positions of parseDOSTime. -/
theorem two_add_norm (b k : Nat) : 2 + (b + k) = b + (k + 2) := by omega

theorem add_add_one (b j : Nat) : b + j + 1 = b + (j + 1) := by omega

theorem add_add_two (b j : Nat) : b + j + 2 = b + (j + 2) := by omega

theorem add_add_three (b j : Nat) : b + j + 3 = b + (j + 3) := by omega

/-- Side conditions under which every field of a track record fits its
encoded width: DOS ranges for the three timestamps, 0 <= ekbNumber < 2^31
(getUint32 is signed), 16-bit indices and counts, byte-sized licence
fields, byte-valued key/mac/contentId/codecInfo entries. -/
def TrackFits (t : HiMDRawTrack) : Prop :=
  DOSFits t.recordingTime ∧ DOSFits t.licenseStartTime ∧ DOSFits t.licenseEndTime ∧
  0 ≤ t.ekbNumber ∧ t.ekbNumber < 2 ^ 31 ∧
  t.titleIndex < 2 ^ 16 ∧ t.artistIndex < 2 ^ 16 ∧ t.albumIndex < 2 ^ 16 ∧
  t.trackInAlbum < 256 ∧ (∀ i, t.key i < 256) ∧ (∀ i, t.mac i < 256) ∧
  t.codecId < 256 ∧ (∀ i, t.codecInfo i < 256) ∧
  t.firstFragment < 2 ^ 16 ∧ t.trackNumber < 2 ^ 16 ∧ t.seconds < 2 ^ 16 ∧
  t.lt < 256 ∧ t.dest < 256 ∧ (∀ i, t.contentId i < 256) ∧
  t.xcc < 256 ∧ t.ct < 256 ∧ t.cc < 256 ∧ t.cn < 256

set_option maxHeartbeats 1000000 in
/-- C5 (amended): getTrack after writeTrack returns the record unchanged,
for records whose fields fit their encoded widths, provided additionally
that the hour of each of the three timestamps is even (forced by the
0xf100 hour mask of parseDOSTime) and 0 <= ekbNumber < 2^31 (forced by
the signed getUint32). -/
theorem getTrack_writeTrack (tif : Buf) (s : Nat) (t : HiMDRawTrack)
    (hfits : TrackFits t)
    (hev1 : t.recordingTime.hour % 2 = 0) (hev2 : t.licenseStartTime.hour % 2 = 0)
    (hev3 : t.licenseEndTime.hour % 2 = 0) :
    getTrack (writeTrack tif s t) s = t := by
  obtain ⟨hdos1, hdos2, hdos3, hekb0, hekb1, hti, hai, hal, htia, hkey, hmac,
    hcid, hcinfo, hff, htn, hsec, hlt, hdest, hcont, hxcc, hct, hcc, hcn⟩ := hfits
  have hrd := parse_dos_words t.recordingTime hdos1 hev1
  have hls := parse_dos_words t.licenseStartTime hdos2 hev2
  have hle := parse_dos_words t.licenseEndTime hdos3 hev3
  have htw1 := dosTimeWord_lt t.recordingTime (by obtain ⟨_, h, _⟩ := hdos1; omega)
    (by obtain ⟨_, _, h, _⟩ := hdos1; omega) (by obtain ⟨_, _, _, h, _⟩ := hdos1; omega)
  have hdw1 := dosDateWord_lt t.recordingTime (by obtain ⟨_, _, _, _, h, _⟩ := hdos1; omega)
    (by obtain ⟨_, _, _, _, _, h1, h2, _⟩ := hdos1; omega)
    (by obtain ⟨_, _, _, _, _, _, _, h1, h2⟩ := hdos1; omega)
  have htw2 := dosTimeWord_lt t.licenseStartTime (by obtain ⟨_, h, _⟩ := hdos2; omega)
    (by obtain ⟨_, _, h, _⟩ := hdos2; omega) (by obtain ⟨_, _, _, h, _⟩ := hdos2; omega)
  have hdw2 := dosDateWord_lt t.licenseStartTime (by obtain ⟨_, _, _, _, h, _⟩ := hdos2; omega)
    (by obtain ⟨_, _, _, _, _, h1, h2, _⟩ := hdos2; omega)
    (by obtain ⟨_, _, _, _, _, _, _, h1, h2⟩ := hdos2; omega)
  have htw3 := dosTimeWord_lt t.licenseEndTime (by obtain ⟨_, h, _⟩ := hdos3; omega)
    (by obtain ⟨_, _, h, _⟩ := hdos3; omega) (by obtain ⟨_, _, _, h, _⟩ := hdos3; omega)
  have hdw3 := dosDateWord_lt t.licenseEndTime (by obtain ⟨_, _, _, _, h, _⟩ := hdos3; omega)
    (by obtain ⟨_, _, _, _, _, h1, h2, _⟩ := hdos3; omega)
    (by obtain ⟨_, _, _, _, _, _, _, h1, h2⟩ := hdos3; omega)
  have hRec : ∀ b : Nat, parseDOSTime (writeTrackAt tif b t) (b + 0) =
      t.recordingTime := by
    intro b
    have e0 : (0 : Nat) + (b + 0) = b + 0 := by omega
    have e1 : b + 0 + 1 = b + 1 := by omega
    have e2 : (2 : Nat) + (b + 0) = b + 2 := by omega
    have e3 : b + 2 + 1 = b + 3 := by omega
    apply DOSTime.ext
    case second =>
      simp only [parseDOSTime, getUint16, e0, e1, e2, e3, writeTrackAt_read,
        trackByte, Nat.reduceEqDiff, ite_true, ite_false, mask_ff_mod]
      rw [uint16_reassemble htw1]
      have hcomp := hrd.1
      omega
    case minute =>
      simp only [parseDOSTime, getUint16, e0, e1, e2, e3, writeTrackAt_read,
        trackByte, Nat.reduceEqDiff, ite_true, ite_false, mask_ff_mod]
      rw [uint16_reassemble htw1]
      have hcomp := hrd.2.1
      omega
    case hour =>
      simp only [parseDOSTime, getUint16, e0, e1, e2, e3, writeTrackAt_read,
        trackByte, Nat.reduceEqDiff, ite_true, ite_false, mask_ff_mod]
      rw [uint16_reassemble htw1]
      have hcomp := hrd.2.2.1
      omega
    case day =>
      simp only [parseDOSTime, getUint16, e0, e1, e2, e3, writeTrackAt_read,
        trackByte, Nat.reduceEqDiff, ite_true, ite_false, mask_ff_mod]
      rw [uint16_reassemble hdw1]
      have hcomp := hrd.2.2.2.1
      omega
    case month =>
      simp only [parseDOSTime, getUint16, e0, e1, e2, e3, writeTrackAt_read,
        trackByte, Nat.reduceEqDiff, ite_true, ite_false, mask_ff_mod]
      rw [uint16_reassemble hdw1]
      have hcomp := hrd.2.2.2.2.1
      omega
    case year =>
      simp only [parseDOSTime, getUint16, e0, e1, e2, e3, writeTrackAt_read,
        trackByte, Nat.reduceEqDiff, ite_true, ite_false, mask_ff_mod]
      rw [uint16_reassemble hdw1]
      have hcomp := hrd.2.2.2.2.2
      omega
  have hLS : ∀ b : Nat, parseDOSTime (writeTrackAt tif b t) (b + 68) =
      t.licenseStartTime := by
    intro b
    have e0 : (0 : Nat) + (b + 68) = b + 68 := by omega
    have e1 : b + 68 + 1 = b + 69 := by omega
    have e2 : (2 : Nat) + (b + 68) = b + 70 := by omega
    have e3 : b + 70 + 1 = b + 71 := by omega
    apply DOSTime.ext
    case second =>
      simp only [parseDOSTime, getUint16, e0, e1, e2, e3, writeTrackAt_read,
        trackByte, Nat.reduceEqDiff, ite_true, ite_false, mask_ff_mod]
      rw [uint16_reassemble htw2]
      have hcomp := hls.1
      omega
    case minute =>
      simp only [parseDOSTime, getUint16, e0, e1, e2, e3, writeTrackAt_read,
        trackByte, Nat.reduceEqDiff, ite_true, ite_false, mask_ff_mod]
      rw [uint16_reassemble htw2]
      have hcomp := hls.2.1
      omega
    case hour =>
      simp only [parseDOSTime, getUint16, e0, e1, e2, e3, writeTrackAt_read,
        trackByte, Nat.reduceEqDiff, ite_true, ite_false, mask_ff_mod]
      rw [uint16_reassemble htw2]
      have hcomp := hls.2.2.1
      omega
    case day =>
      simp only [parseDOSTime, getUint16, e0, e1, e2, e3, writeTrackAt_read,
        trackByte, Nat.reduceEqDiff, ite_true, ite_false, mask_ff_mod]
      rw [uint16_reassemble hdw2]
      have hcomp := hls.2.2.2.1
      omega
    case month =>
      simp only [parseDOSTime, getUint16, e0, e1, e2, e3, writeTrackAt_read,
        trackByte, Nat.reduceEqDiff, ite_true, ite_false, mask_ff_mod]
      rw [uint16_reassemble hdw2]
      have hcomp := hls.2.2.2.2.1
      omega
    case year =>
      simp only [parseDOSTime, getUint16, e0, e1, e2, e3, writeTrackAt_read,
        trackByte, Nat.reduceEqDiff, ite_true, ite_false, mask_ff_mod]
      rw [uint16_reassemble hdw2]
      have hcomp := hls.2.2.2.2.2
      omega
  have hLE : ∀ b : Nat, parseDOSTime (writeTrackAt tif b t) (b + 72) =
      t.licenseEndTime := by
    intro b
    have e0 : (0 : Nat) + (b + 72) = b + 72 := by omega
    have e1 : b + 72 + 1 = b + 73 := by omega
    have e2 : (2 : Nat) + (b + 72) = b + 74 := by omega
    have e3 : b + 74 + 1 = b + 75 := by omega
    apply DOSTime.ext
    case second =>
      simp only [parseDOSTime, getUint16, e0, e1, e2, e3, writeTrackAt_read,
        trackByte, Nat.reduceEqDiff, ite_true, ite_false, mask_ff_mod]
      rw [uint16_reassemble htw3]
      have hcomp := hle.1
      omega
    case minute =>
      simp only [parseDOSTime, getUint16, e0, e1, e2, e3, writeTrackAt_read,
        trackByte, Nat.reduceEqDiff, ite_true, ite_false, mask_ff_mod]
      rw [uint16_reassemble htw3]
      have hcomp := hle.2.1
      omega
    case hour =>
      simp only [parseDOSTime, getUint16, e0, e1, e2, e3, writeTrackAt_read,
        trackByte, Nat.reduceEqDiff, ite_true, ite_false, mask_ff_mod]
      rw [uint16_reassemble htw3]
      have hcomp := hle.2.2.1
      omega
    case day =>
      simp only [parseDOSTime, getUint16, e0, e1, e2, e3, writeTrackAt_read,
        trackByte, Nat.reduceEqDiff, ite_true, ite_false, mask_ff_mod]
      rw [uint16_reassemble hdw3]
      have hcomp := hle.2.2.2.1
      omega
    case month =>
      simp only [parseDOSTime, getUint16, e0, e1, e2, e3, writeTrackAt_read,
        trackByte, Nat.reduceEqDiff, ite_true, ite_false, mask_ff_mod]
      rw [uint16_reassemble hdw3]
      have hcomp := hle.2.2.2.2.1
      omega
    case year =>
      simp only [parseDOSTime, getUint16, e0, e1, e2, e3, writeTrackAt_read,
        trackByte, Nat.reduceEqDiff, ite_true, ite_false, mask_ff_mod]
      rw [uint16_reassemble hdw3]
      have hcomp := hle.2.2.2.2.2
      omega
  have hEkb : ∀ b : Nat, getUint32 (writeTrackAt tif b t) (b + 4) = t.ekbNumber := by
    intro b
    simp only [getUint32, add_add_one, add_add_two, add_add_three, Nat.reduceAdd,
      writeTrackAt_read, trackByte, Nat.reduceEqDiff, ite_true, ite_false, mask_ff_mod]
    have hw : ((t.ekbNumber % (2 ^ 32 : Int)).toNat) < 2 ^ 32 := by omega
    rw [uint32_reassemble hw]
    unfold toInt32
    split <;> omega
  have hTitle : ∀ b : Nat, getUint16 (writeTrackAt tif b t) (b + 8) = t.titleIndex := by
    intro b
    simp only [getUint16, add_add_one, Nat.reduceAdd, writeTrackAt_read, trackByte,
      Nat.reduceEqDiff, ite_true, ite_false, mask_ff_mod]
    exact uint16_reassemble hti
  have hArtist : ∀ b : Nat, getUint16 (writeTrackAt tif b t) (b + 10) = t.artistIndex := by
    intro b
    simp only [getUint16, add_add_one, Nat.reduceAdd, writeTrackAt_read, trackByte,
      Nat.reduceEqDiff, ite_true, ite_false, mask_ff_mod]
    exact uint16_reassemble hai
  have hAlbum : ∀ b : Nat, getUint16 (writeTrackAt tif b t) (b + 12) = t.albumIndex := by
    intro b
    simp only [getUint16, add_add_one, Nat.reduceAdd, writeTrackAt_read, trackByte,
      Nat.reduceEqDiff, ite_true, ite_false, mask_ff_mod]
    exact uint16_reassemble hal
  have hTia : ∀ b : Nat, writeTrackAt tif b t (b + 14) = t.trackInAlbum := by
    intro b
    simp only [writeTrackAt_read, trackByte, Nat.reduceEqDiff, ite_true, ite_false]
    exact byte_mod _ htia
  have hKey : ∀ b : Nat,
      (fun i : Fin 8 => writeTrackAt tif b t (b + (16 + i.val))) = t.key := by
    intro b
    funext i
    fin_cases i <;>
    · simp only [Nat.reduceAdd, writeTrackAt_read, trackByte, Nat.reduceEqDiff,
        ite_true, ite_false]
      exact byte_mod _ (hkey _)
  have hMac : ∀ b : Nat,
      (fun i : Fin 8 => writeTrackAt tif b t (b + (24 + i.val))) = t.mac := by
    intro b
    funext i
    fin_cases i <;>
    · simp only [Nat.reduceAdd, writeTrackAt_read, trackByte, Nat.reduceEqDiff,
        ite_true, ite_false]
      exact byte_mod _ (hmac _)
  have hCid : ∀ b : Nat, writeTrackAt tif b t (b + 32) = t.codecId := by
    intro b
    simp only [writeTrackAt_read, trackByte, Nat.reduceEqDiff, ite_true, ite_false]
    exact byte_mod _ hcid
  have hCinfo : ∀ b : Nat,
      (fun i : Fin 5 => if i.val < 3 then writeTrackAt tif b t (b + (33 + i.val))
        else writeTrackAt tif b t (b + (44 + (i.val - 3)))) = t.codecInfo := by
    intro b
    funext i
    fin_cases i <;>
    · simp only [Nat.reduceAdd, Nat.reduceSub, reduceIte, writeTrackAt_read, trackByte,
        Nat.reduceEqDiff, ite_true, ite_false]
      exact byte_mod _ (hcinfo _)
  have hFF : ∀ b : Nat, getUint16 (writeTrackAt tif b t) (b + 36) = t.firstFragment := by
    intro b
    simp only [getUint16, add_add_one, Nat.reduceAdd, writeTrackAt_read, trackByte,
      Nat.reduceEqDiff, ite_true, ite_false, mask_ff_mod]
    exact uint16_reassemble hff
  have hTN : ∀ b : Nat, getUint16 (writeTrackAt tif b t) (b + 38) = t.trackNumber := by
    intro b
    simp only [getUint16, add_add_one, Nat.reduceAdd, writeTrackAt_read, trackByte,
      Nat.reduceEqDiff, ite_true, ite_false, mask_ff_mod]
    exact uint16_reassemble htn
  have hSec : ∀ b : Nat, getUint16 (writeTrackAt tif b t) (b + 40) = t.seconds := by
    intro b
    simp only [getUint16, add_add_one, Nat.reduceAdd, writeTrackAt_read, trackByte,
      Nat.reduceEqDiff, ite_true, ite_false, mask_ff_mod]
    exact uint16_reassemble hsec
  have hLt : ∀ b : Nat, writeTrackAt tif b t (b + 42) = t.lt := by
    intro b
    simp only [writeTrackAt_read, trackByte, Nat.reduceEqDiff, ite_true, ite_false]
    exact byte_mod _ hlt
  have hDest : ∀ b : Nat, writeTrackAt tif b t (b + 43) = t.dest := by
    intro b
    simp only [writeTrackAt_read, trackByte, Nat.reduceEqDiff, ite_true, ite_false]
    exact byte_mod _ hdest
  have hCont : ∀ b : Nat,
      (fun i : Fin 20 => writeTrackAt tif b t (b + (48 + i.val))) = t.contentId := by
    intro b
    funext i
    fin_cases i <;>
    · simp only [Nat.reduceAdd, writeTrackAt_read, trackByte, Nat.reduceEqDiff,
        ite_true, ite_false]
      exact byte_mod _ (hcont _)
  have hXcc : ∀ b : Nat, writeTrackAt tif b t (b + 76) = t.xcc := by
    intro b
    simp only [writeTrackAt_read, trackByte, Nat.reduceEqDiff, ite_true, ite_false]
    exact byte_mod _ hxcc
  have hCt : ∀ b : Nat, writeTrackAt tif b t (b + 77) = t.ct := by
    intro b
    simp only [writeTrackAt_read, trackByte, Nat.reduceEqDiff, ite_true, ite_false]
    exact byte_mod _ hct
  have hCc : ∀ b : Nat, writeTrackAt tif b t (b + 78) = t.cc := by
    intro b
    simp only [writeTrackAt_read, trackByte, Nat.reduceEqDiff, ite_true, ite_false]
    exact byte_mod _ hcc
  have hCn : ∀ b : Nat, writeTrackAt tif b t (b + 79) = t.cn := by
    intro b
    simp only [writeTrackAt_read, trackByte, Nat.reduceEqDiff, ite_true, ite_false]
    exact byte_mod _ hcn
  apply HiMDRawTrack.ext
  exacts [hRec (0x8000 + 0x50 * s), hEkb (0x8000 + 0x50 * s),
    hTitle (0x8000 + 0x50 * s), hArtist (0x8000 + 0x50 * s),
    hAlbum (0x8000 + 0x50 * s), hTia (0x8000 + 0x50 * s),
    hKey (0x8000 + 0x50 * s), hMac (0x8000 + 0x50 * s),
    hCid (0x8000 + 0x50 * s), hCinfo (0x8000 + 0x50 * s),
    hFF (0x8000 + 0x50 * s), hTN (0x8000 + 0x50 * s),
    hSec (0x8000 + 0x50 * s), hLt (0x8000 + 0x50 * s),
    hDest (0x8000 + 0x50 * s), hCont (0x8000 + 0x50 * s),
    hLS (0x8000 + 0x50 * s), hLE (0x8000 + 0x50 * s),
    hXcc (0x8000 + 0x50 * s), hCt (0x8000 + 0x50 * s),
    hCc (0x8000 + 0x50 * s), hCn (0x8000 + 0x50 * s)]
/-- A DOS-range timestamp with an even hour, used to instantiate the
round-trip. -/
def sampleDOS : DOSTime :=
  { second := 30, minute := 15, hour := 10, day := 5, month := 3, year := 99 }

/-- A sample track record whose fields all fit their encoded widths. -/
def sampleTrack : HiMDRawTrack :=
  { recordingTime := sampleDOS, ekbNumber := 0x00010012, titleIndex := 1,
    artistIndex := 2, albumIndex := 3, trackInAlbum := 4, key := fun _ => 7,
    mac := fun _ => 8, codecId := 5, codecInfo := fun _ => 6, firstFragment := 9,
    trackNumber := 1, seconds := 100, lt := 1, dest := 0, contentId := fun _ => 2,
    licenseStartTime := sampleDOS, licenseEndTime := sampleDOS, xcc := 1,
    ct := 0, cc := 0, cn := 0 }

/-- C5 witness: the round-trip theorem applied to a concrete slot and
track record. -/
theorem getTrack_writeTrack_witness :
    getTrack (writeTrack (fun _ => 0) 1 sampleTrack) 1 = sampleTrack :=
  getTrack_writeTrack (fun _ => 0) 1 sampleTrack
    (by simp only [TrackFits, DOSFits]; decide) (by decide) (by decide) (by decide)

/-- A track record identical to sampleTrack except that the recording
hour is odd (11); every field still fits its encoded width. -/
def oddHourTrack : HiMDRawTrack :=
  { sampleTrack with recordingTime := { sampleDOS with hour := 11 } }

/-- C5: counterexample to the unrestricted claim.  parseDOSTime masks the
packed hour with 0xf100 instead of 0xf800, dropping bit 11, so a track
whose recording hour is 11 (in DOS range, fitting its encoded width)
reads back with hour 10 after writeTrack: the round-trip is not the
identity on all in-range records. -/
theorem getTrack_writeTrack_counterexample :
    (getTrack (writeTrack (fun _ => 0) 0 oddHourTrack) 0).recordingTime.hour ≠
      oddHourTrack.recordingTime.hour := by
  decide

/-! ## C1: removeTrack and the track freelist -/

theorem setUint16_ne (d : Buf) (v o i : Nat) (h1 : i ≠ o) (h2 : i ≠ o + 1) :
    setUint16 d v o i = d i := by
  simp only [setUint16, setByte]
  rw [if_neg h2, if_neg h1]

theorem setUint16_get (d : Buf) (v o : Nat) (h : v < 2 ^ 16) :
    getUint16 (setUint16 d v o) o = v := by
  simp only [getUint16, setUint16, setByte, ite_true, eq_self_iff_true]
  rw [if_neg (show ¬o = o + 1 by omega), mask_ff_mod, mask_ff_mod]
  exact uint16_reassemble h

theorem fillZero_lt (d : Buf) (base len i : Nat) (h : i < base) :
    fillZero d base len i = d i := by
  simp only [fillZero]
  rw [if_neg (by omega)]

theorem fillZero_in (d : Buf) (base len i : Nat) (h1 : base ≤ i) (h2 : i < base + len) :
    fillZero d base len i = 0 := by
  simp only [fillZero]
  rw [if_pos ⟨h1, h2⟩]

/-- Reading back the trackNumber field written by writeTrackAt. -/
theorem writeTrackAt_trackNumber (d : Buf) (b : Nat) (t : HiMDRawTrack)
    (h : t.trackNumber < 2 ^ 16) :
    getUint16 (writeTrackAt d b t) (b + 38) = t.trackNumber := by
  simp only [getUint16, add_add_one, Nat.reduceAdd, writeTrackAt_read, trackByte,
    Nat.reduceEqDiff, ite_true, ite_false, mask_ff_mod]
  exact uint16_reassemble h

/-- Below the freed slot, removeTrack only changes the buffer through its
writeTrack of slot 0. -/
theorem removeTrack_read_low (tif : Buf) (s i : Nat) (hi : i < 0x8000 + 0x50 * s) :
    removeTrack tif s i =
      writeTrack tif 0 { getTrack tif 0 with trackNumber := s } i := by
  simp only [removeTrack]
  refine (setUint16_ne _ _ _ _ ?_ ?_).trans (fillZero_lt _ _ _ _ ?_) <;> omega

/-- C1 (amended): after removeTrack(s) for s in [1, 2047] on a byte-valued
track index, slot 0's trackNumber is s and every byte of slot s is zero
except the 2-byte field at offset 0x26 (38), which holds the removed
record's firstFragment — not the previous freelist successor. -/
theorem removeTrack_spec (tif : Buf) (s : Nat) (hok : BytesOk tif)
    (hs1 : 1 ≤ s) (hs2 : s ≤ 2047) :
    (getTrack (removeTrack tif s) 0).trackNumber = s ∧
    (∀ k, k < 0x50 → k ≠ 38 → k ≠ 39 →
      removeTrack tif s (0x8000 + 0x50 * s + k) = 0) ∧
    getUint16 (removeTrack tif s) (0x8000 + 0x50 * s + 38) =
      (getTrack tif s).firstFragment := by
  refine ⟨?_, ?_, ?_⟩
  · show getUint16 (removeTrack tif s) (0x8000 + 0x50 * 0 + 38) = s
    have e1 : removeTrack tif s (0x8000 + 0x50 * 0 + 38) =
        writeTrack tif 0 { getTrack tif 0 with trackNumber := s }
          (0x8000 + 0x50 * 0 + 38) :=
      removeTrack_read_low tif s _ (by omega)
    have e2 : removeTrack tif s (0x8000 + 0x50 * 0 + 38 + 1) =
        writeTrack tif 0 { getTrack tif 0 with trackNumber := s }
          (0x8000 + 0x50 * 0 + 38 + 1) :=
      removeTrack_read_low tif s _ (by omega)
    simp only [getUint16]
    rw [e1, e2]
    exact writeTrackAt_trackNumber tif (0x8000 + 0x50 * 0) _
      (show s < 2 ^ 16 by omega)
  · intro k hk h38 h39
    simp only [removeTrack]
    refine (setUint16_ne _ _ _ _ ?_ ?_).trans (fillZero_in _ _ _ _ ?_ ?_) <;> omega
  · simp only [removeTrack]
    exact setUint16_get _ _ _ (getUint16_lt hok _)

/-- C1 witness: the amended removeTrack theorem applied to the all-zero
buffer and slot 1. -/
theorem removeTrack_spec_witness :
    (getTrack (removeTrack (fun _ => 0) 1) 0).trackNumber = 1 ∧
    (∀ k, k < 0x50 → k ≠ 38 → k ≠ 39 →
      removeTrack (fun _ => 0) 1 (0x8000 + 0x50 * 1 + k) = 0) ∧
    getUint16 (removeTrack (fun _ => 0) 1) (0x8000 + 0x50 * 1 + 38) =
      (getTrack (fun _ => 0) 1).firstFragment :=
  removeTrack_spec (fun _ => 0) 1 (fun _ => by norm_num) (by norm_num) (by norm_num)

/-- Concrete track index for the C1 counterexample: all zero except
slot 0's trackNumber = 2 (the freelist head) and slot 1's
firstFragment = 5. -/
def rtBuf : Buf :=
  setUint16 (setUint16 (fun _ => 0) 2 (0x8000 + 38)) 5 (0x8000 + 0x50 + 36)

/-- C1: counterexample to the original claim.  Before the call slot 0's
trackNumber (the freelist successor that would be prepended) is 2, but
after removeTrack(1) the 2-byte field at offset 0x26 of the freed slot
holds 5 — the removed record's firstFragment — not 2. -/
theorem removeTrack_counterexample :
    (getTrack rtBuf 0).trackNumber = 2 ∧
    getUint16 (removeTrack rtBuf 1) (0x8000 + 0x50 * 1 + 38) = 5 := by
  decide

/-! ## C2: the double addFragment of uploadMacDependent -/

/-- The fragment-table tail of uploadMacDependent from
src/himd-functions.ts (lines 644-647): `const fragmentIndex =
himd.addFragment(fragment); trackData.firstFragment =
himd.addFragment(fragment);` — the same fragment is added twice and the
first returned index is discarded.  Returns the resulting buffer, the
discarded fragmentIndex, and the value assigned to
trackData.firstFragment. -/
def uploadFragmentTail (tif : Buf) (fragment : HiMDFragment) : Buf × Nat × Nat :=
  let r1 := addFragment tif fragment
  let r2 := addFragment r1.1 fragment
  (r2.1, r1.2, r2.2)

/-- A fragment table whose freelist runs 0 → 1 → 2 → 3 (slot i's
nextFragment is i + 1), all other bytes zero. -/
def fragBuf : Buf :=
  setUint16 (setUint16 (setUint16 (fun _ => 0)
    1 (0x30000 + 14)) 2 (0x30000 + 0x10 + 14)) 3 (0x30000 + 0x20 + 14)

/-- The fragment uploaded in the C2 scenario. -/
def sampleFragment : HiMDFragment :=
  { key := [1, 2, 3, 4, 5, 6, 7, 8], firstBlock := 100, lastBlock := 200,
    firstFrame := 0, lastFrame := 10, fragmentType := 0, nextFragment := 0 }

/-- C2: uploadMacDependent (src/himd-functions.ts) adds the new fragment
to the fragment table twice, not once.  On a freelist 0 → 1 → 2 → 3 the
first call returns index 1 and the second returns index 2:
trackData.firstFragment is set to 2, the fragment is written to both
slots 1 and 2, and the freelist head advances to 3, so two slots are
consumed per uploaded track instead of the claimed one. -/
theorem uploadMacDependent_double_addFragment :
    (uploadFragmentTail fragBuf sampleFragment).2.1 = 1 ∧
    (uploadFragmentTail fragBuf sampleFragment).2.2 = 2 ∧
    (getFragment (uploadFragmentTail fragBuf sampleFragment).1 0).nextFragment = 3 ∧
    getFragment (uploadFragmentTail fragBuf sampleFragment).1 1 = sampleFragment ∧
    getFragment (uploadFragmentTail fragBuf sampleFragment).1 2 = sampleFragment := by
  decide

/-! ## C8: performAuthentication (src/secure-session.ts, src/encryption.ts) -/

theorem setByte_ne (d : Buf) (o v i : Nat) (h : i ≠ o) : setByte d o v i = d i := by
  simp only [setByte]
  rw [if_neg h]

/-- Byte-wise xor of two blocks (xorKeys / CBC chaining). -/
def xorBlock (a b : List Nat) : List Nat :=
  List.zipWith (fun x y => x ^^^ y) a b

/-- The last ciphertext block of a DES-CBC encryption (crypto-js
Crypto.DES.encrypt with mode CBC and no padding), with the running IV as
accumulator; the fuel is instantiated with the message length. -/
def cbcLast (des : DESPrimitives) (key : List Nat) : Nat → List Nat → List Nat → List Nat
  | 0, iv, _ => iv
  | fuel + 1, iv, data =>
    if data.isEmpty then iv
    else cbcLast des key fuel (des.enc8 key (xorBlock iv (data.take 8))) (data.drop 8)

/-- The zero IV used by retailMac and createIcvMac. -/
def zeroBlock : List Nat := [0, 0, 0, 0, 0, 0, 0, 0]

/-- retailMac from src/encryption.ts: CBC-encrypt the message with the
first key half and a zero IV, keep the last ciphertext block, ECB-decrypt
it with the second key half and ECB-encrypt the result with the first
half again. -/
def retailMac (des : DESPrimitives) (message key : List Nat) : List Nat :=
  let keyA := key.take 8
  let keyB := (key.drop 8).take 8
  let messageB := cbcLast des keyA message.length zeroBlock message
  desEcbEncrypt des keyA (desEcbDecrypt des keyB messageB)

/-- decryptMaclistKey from src/encryption.ts: 3DES-ECB decrypt with the
0x00010012 root, truncated to 16 bytes (wordArrayToByteArray length 16). -/
def decryptMaclistKey (des : DESPrimitives) (key : List Nat) : List Nat :=
  (tdesEcbDecrypt des EKBROOT key).take 16

/-- Consecutive bytes of a byte source (HiMDFile seek + read). -/
def readBytes (f : Nat → Nat) (off len : Nat) : List Nat :=
  (List.range len).map (fun i => f (off + i))

/-- The inputs consumed by HiMDSecureSession.performAuthentication when a
driver is present: the host nonce, the driver's stage-2 answer (disc id,
device nonce, device MAC), the ICV header returned by readICV, and the
byte contents of the MAC list file.  The ICV body and the 32000-byte
allMacs area are carried through unchanged by the source and are not
modelled. -/
structure AuthInputs where
  hostNonce : List Nat
  discId : List Nat
  deviceNonce : List Nat
  deviceMac : List Nat
  icvHeader : Buf
  mclist : Nat → Nat

/-- The session state established by a successful performAuthentication. -/
structure AuthResult where
  sessionKey : List Nat
  currentGeneration : Int
  icvHeader : Buf
  headKey : List Nat
  bodyKey : List Nat

/-- HiMDSecureSession.performAuthentication (driver present), from
src/secure-session.ts: verify the device MAC (assert throws otherwise),
derive the host MAC, rewrite ICV header byte 1 to 0x20, increment the
32-bit generation at header offset 4 (signed getUint32, as in the
source), derive the session key from the device-sent MAC, then check the
MAC list EKB id at offset 0x38 (assert throws otherwise) and decrypt the
head and body keys from offsets 0x10 and 0x60. -/
def performAuthentication (des : DESPrimitives) (a : AuthInputs) :
    Except String AuthResult :=
  let recalculatedMac := retailMac des (a.discId ++ a.hostNonce ++ a.deviceNonce) MAIN_KEY
  if a.deviceMac = recalculatedMac then
    let hostMac := retailMac des (a.discId ++ a.deviceNonce ++ a.hostNonce) MAIN_KEY
    let header1 := setByte a.icvHeader 1 0x20
    let gen1 := getUint32 header1 4 + 1
    let header2 := setUint32 header1 gen1 4
    let sessionKey := retailMac des (a.discId ++ a.deviceMac ++ hostMac) MAIN_KEY
    if readBytes a.mclist 0x38 4 = [0x00, 0x01, 0x00, 0x12] then
      Except.ok { sessionKey := sessionKey, currentGeneration := gen1,
                  icvHeader := header2,
                  headKey := decryptMaclistKey des (readBytes a.mclist 0x10 0x10),
                  bodyKey := decryptMaclistKey des (readBytes a.mclist 0x60 0x10) }
    else Except.error "The MAC list has been verified using a different EKB!"
  else Except.error "Device MAC doesn't match!"

/-- C8 (amended): performAuthentication throws iff the device MAC differs
from retailMac(discId || hostNonce || deviceNonce, MAIN_KEY) OR the MAC
list EKB id at offset 0x38 differs from 00 01 00 12; on success the
session key is retailMac(discId || deviceMac || hostMac, MAIN_KEY) with
hostMac = retailMac(discId || deviceNonce || hostNonce, MAIN_KEY), the
stored generation is the (signed) 32-bit value at header offset 4 plus
one, and byte 1 of the ICV header reads back as 0x20. -/
theorem performAuthentication_spec (des : DESPrimitives) (a : AuthInputs) :
    ((∃ e, performAuthentication des a = Except.error e) ↔
      (a.deviceMac ≠ retailMac des (a.discId ++ a.hostNonce ++ a.deviceNonce) MAIN_KEY ∨
       readBytes a.mclist 0x38 4 ≠ [0x00, 0x01, 0x00, 0x12])) ∧
    (∀ r, performAuthentication des a = Except.ok r →
      r.sessionKey = retailMac des (a.discId ++ a.deviceMac ++
        retailMac des (a.discId ++ a.deviceNonce ++ a.hostNonce) MAIN_KEY) MAIN_KEY ∧
      r.currentGeneration = getUint32 a.icvHeader 4 + 1 ∧
      r.icvHeader 1 = 0x20 ∧
      r.headKey = decryptMaclistKey des (readBytes a.mclist 0x10 0x10) ∧
      r.bodyKey = decryptMaclistKey des (readBytes a.mclist 0x60 0x10)) := by
  have hg : getUint32 (setByte a.icvHeader 1 0x20) 4 = getUint32 a.icvHeader 4 := by
    simp only [getUint32, setByte, Nat.reduceAdd, Nat.reduceEqDiff, ite_false]
  constructor
  · constructor
    · rintro ⟨e, he⟩
      by_contra hcon
      push_neg at hcon
      obtain ⟨hm, hek⟩ := hcon
      simp only [performAuthentication] at he
      rw [if_pos hm, if_pos hek] at he
      exact Except.noConfusion he
    · rintro (h | h)
      · refine ⟨"Device MAC doesn't match!", ?_⟩
        simp only [performAuthentication]
        rw [if_neg h]
      · by_cases hm : a.deviceMac =
            retailMac des (a.discId ++ a.hostNonce ++ a.deviceNonce) MAIN_KEY
        · refine ⟨"The MAC list has been verified using a different EKB!", ?_⟩
          simp only [performAuthentication]
          rw [if_pos hm, if_neg h]
        · refine ⟨"Device MAC doesn't match!", ?_⟩
          simp only [performAuthentication]
          rw [if_neg hm]
  · intro r hr
    simp only [performAuthentication] at hr
    by_cases hm : a.deviceMac =
        retailMac des (a.discId ++ a.hostNonce ++ a.deviceNonce) MAIN_KEY
    · rw [if_pos hm] at hr
      by_cases hek : readBytes a.mclist 0x38 4 = [0x00, 0x01, 0x00, 0x12]
      · rw [if_pos hek] at hr
        injection hr with hrec
        subst hrec
        refine ⟨by rw [hm], ?_, ?_, rfl, rfl⟩
        · show getUint32 (setByte a.icvHeader 1 0x20) 4 + 1 = getUint32 a.icvHeader 4 + 1
          rw [hg]
        · show setUint32 (setByte a.icvHeader 1 0x20)
              (getUint32 (setByte a.icvHeader 1 0x20) 4 + 1) 4 1 = 0x20
          simp only [setUint32, setByte, Nat.reduceAdd, Nat.reduceEqDiff, ite_false,
            ite_true, Nat.reduceMod]
      · rw [if_neg hek] at hr
        exact Except.noConfusion hr
    · rw [if_neg hm] at hr
      exact Except.noConfusion hr

/-- Concrete inputs for the C8 counterexample: the device MAC is exactly
the recalculated retail MAC, but the MAC list bytes are all zero, so the
EKB id check fails. -/
def macOkInputs : AuthInputs :=
  { hostNonce := [1, 2, 3, 4, 5, 6, 7, 8],
    discId := [0, 1, 2, 3, 4, 5, 6, 7, 8, 9, 10, 11, 12, 13, 14, 15],
    deviceNonce := [9, 10, 11, 12, 13, 14, 15, 16],
    deviceMac := retailMac desWitness
      ([0, 1, 2, 3, 4, 5, 6, 7, 8, 9, 10, 11, 12, 13, 14, 15] ++
        [1, 2, 3, 4, 5, 6, 7, 8] ++ [9, 10, 11, 12, 13, 14, 15, 16]) MAIN_KEY,
    icvHeader := fun _ => 0,
    mclist := fun _ => 0 }

/-- C8: counterexample to the claimed "throws iff the device MAC
differs".  With a matching device MAC, performAuthentication still throws
because the MAC list was verified with a different EKB (the id at offset
0x38 is not 00 01 00 12). -/
theorem performAuthentication_counterexample :
    macOkInputs.deviceMac = retailMac desWitness
      (macOkInputs.discId ++ macOkInputs.hostNonce ++ macOkInputs.deviceNonce) MAIN_KEY ∧
    performAuthentication desWitness macOkInputs =
      Except.error "The MAC list has been verified using a different EKB!" := by
  exact ⟨rfl, rfl⟩

/-! ## C9: advanceGeneration (src/himd.ts) -/

/-- The three datanum-dependent core files rotated by advanceGeneration. -/
inductive CoreFile where
  | atdata
  | mclist
  | trkidx
deriving DecidableEq

/-- Names in /HMDHIFI as produced by getDatanumDependentName and the HJS
archive scheme.  hma core d stands for /HMDHIFI/<NAME><2-hex-digit
d>.HMA and hjs n for /HMDHIFI/<8-digit-padded n>.HJS; both renderings
are injective for the datanums (< 16) and counters in play and the two
shapes never collide, so the constructors model the case-insensitive
string comparison of existsFile faithfully. -/
inductive FileName where
  | hma : CoreFile → Nat → FileName
  | hjs : Nat → FileName
  | other : String → FileName
deriving DecidableEq

/-- A directory entry of filesystem.list, with its type === 'file' flag. -/
structure FSEntry where
  name : FileName
  isFile : Bool
deriving DecidableEq

/-- The existsFile closure of advanceGeneration: some listed entry is a
file with the given name. -/
def existsFile (fs : List FSEntry) (f : FileName) : Bool :=
  fs.any (fun e => e.isFile && e.name == f)

/-- filesystem.rename, on the listing: retitle every entry bearing the
old name. -/
def renameFS (fs : List FSEntry) (a b : FileName) : List FSEntry :=
  fs.map (fun e => if e.name = a then { e with name := b } else e)

/-- The do/while search of advanceGeneration: starting from n, the first
numeric HJS basename that does not exist yet.  The fuel is instantiated
with fs.length + 1, enough for the pigeonhole bound. -/
def findFreeHjs (fs : List FSEntry) : Nat → Nat → Nat
  | 0, n => n
  | fuel + 1, n =>
    if existsFile fs (FileName.hjs n) then findFreeHjs fs fuel (n + 1) else n

/-- One iteration of the advanceGeneration loop for core file e: if the
target <e><newNum>.HMA already exists, rename it to the free HJS slot,
then rename <e><curNum>.HMA to <e><newNum>.HMA. -/
def advanceStep (fs : List FSEntry) (core : CoreFile) (curNum newNum : Nat) :
    List FSEntry :=
  let newName := FileName.hma core newNum
  let fs1 :=
    if existsFile fs newName then
      renameFS fs newName (FileName.hjs (findFreeHjs fs (fs.length + 1) 0))
    else fs
  renameFS fs1 (FileName.hma core curNum) newName

/-- HiMD.advanceGeneration from src/himd.ts: newDataNum = newGeneration %
16; rotate ATDATA, MCLIST, TRKIDX in that order; the new datanum is the
in-memory generation afterwards. -/
def advanceGeneration (fs : List FSEntry) (datanum newGeneration : Nat) :
    List FSEntry × Nat :=
  let newDataNum := newGeneration % 16
  let fs1 := advanceStep fs CoreFile.atdata datanum newDataNum
  let fs2 := advanceStep fs1 CoreFile.mclist datanum newDataNum
  let fs3 := advanceStep fs2 CoreFile.trkidx datanum newDataNum
  (fs3, newDataNum)

/-- Pigeonhole: among the first fs.length + 1 numeric HJS names at least
one does not occur in the listing. -/
theorem exists_free_hjs (fs : List FSEntry) :
    ∃ k, k < fs.length + 1 ∧ existsFile fs (FileName.hjs k) = false := by
  by_contra hcon
  push_neg at hcon
  have hmem : ∀ k ∈ Finset.range (fs.length + 1),
      FileName.hjs k ∈ (fs.map (fun e => e.name)).toFinset := by
    intro k hk
    have htrue : existsFile fs (FileName.hjs k) = true := by
      have := hcon k (Finset.mem_range.mp hk)
      revert this
      cases existsFile fs (FileName.hjs k) <;> simp
    rw [existsFile, List.any_eq_true] at htrue
    obtain ⟨e, hefs, hp⟩ := htrue
    rw [Bool.and_eq_true, beq_iff_eq] at hp
    exact List.mem_toFinset.mpr (List.mem_map.mpr ⟨e, hefs, hp.2⟩)
  have hsub : (Finset.range (fs.length + 1)).image FileName.hjs ⊆
      (fs.map (fun e => e.name)).toFinset := Finset.image_subset_iff.mpr hmem
  have hcard1 : ((Finset.range (fs.length + 1)).image FileName.hjs).card =
      fs.length + 1 := by
    rw [Finset.card_image_of_injective _ (fun a b h => FileName.hjs.inj h),
      Finset.card_range]
  have hcard2 := Finset.card_le_card hsub
  have hcard3 : (fs.map (fun e => e.name)).toFinset.card ≤ fs.length := by
    calc (fs.map (fun e => e.name)).toFinset.card
        ≤ (fs.map (fun e => e.name)).length := (fs.map (fun e => e.name)).toFinset_card_le
      _ = fs.length := List.length_map _ _
  omega

/-- The do/while search returns the least free HJS index at or above its
start, provided one exists within fuel steps. -/
theorem findFreeHjs_spec (fs : List FSEntry) :
    ∀ fuel n, (∃ k, k < fuel ∧ existsFile fs (FileName.hjs (n + k)) = false) →
      existsFile fs (FileName.hjs (findFreeHjs fs fuel n)) = false ∧
      n ≤ findFreeHjs fs fuel n ∧
      ∀ m, n ≤ m → m < findFreeHjs fs fuel n →
        existsFile fs (FileName.hjs m) = true := by
  intro fuel
  induction fuel with
  | zero =>
    rintro n ⟨k, hk, _⟩
    omega
  | succ fuel ih =>
    rintro n ⟨k, hk, hfree⟩
    by_cases h : existsFile fs (FileName.hjs n) = true
    · have hk0 : k ≠ 0 := by
        rintro rfl
        rw [Nat.add_zero, h] at hfree
        cases hfree
      obtain ⟨res1, res2, res3⟩ := ih (n + 1)
        ⟨k - 1, by omega, by rw [show n + 1 + (k - 1) = n + k by omega]; exact hfree⟩
      simp only [findFreeHjs]
      rw [if_pos h]
      refine ⟨res1, by omega, ?_⟩
      intro m hm1 hm2
      rcases Nat.eq_or_lt_of_le hm1 with rfl | hlt
      · exact h
      · exact res3 m (by omega) hm2
    · simp only [findFreeHjs]
      rw [if_neg h]
      rw [Bool.not_eq_true] at h
      exact ⟨h, Nat.le_refl n, fun m hm1 hm2 => (by omega : False).elim⟩

/-- C9: advanceGeneration sets the in-memory generation to newGen % 16
and rotates ATDATA, MCLIST, TRKIDX in that order, where each step leaves
the listing untouched except for the two renames: when the target
<name><newDataNum>.HMA exists it is first moved to the HJS name with the
smallest index not yet present (index 0, i.e. 00000000.HJS, when none
exists), then <name><currentDataNum>.HMA is renamed onto the target. -/
theorem advanceGeneration_spec (fs : List FSEntry) (datanum newGen : Nat) :
    (advanceGeneration fs datanum newGen).2 = newGen % 16 ∧
    (advanceGeneration fs datanum newGen).1 =
      advanceStep (advanceStep (advanceStep fs CoreFile.atdata datanum (newGen % 16))
        CoreFile.mclist datanum (newGen % 16)) CoreFile.trkidx datanum (newGen % 16) ∧
    (∀ gs core cur new,
      (existsFile gs (FileName.hma core new) = false →
        advanceStep gs core cur new =
          renameFS gs (FileName.hma core cur) (FileName.hma core new)) ∧
      (existsFile gs (FileName.hma core new) = true →
        ∃ j, existsFile gs (FileName.hjs j) = false ∧
          (∀ m, m < j → existsFile gs (FileName.hjs m) = true) ∧
          advanceStep gs core cur new =
            renameFS (renameFS gs (FileName.hma core new) (FileName.hjs j))
              (FileName.hma core cur) (FileName.hma core new))) := by
  refine ⟨rfl, rfl, ?_⟩
  intro gs core cur new
  constructor
  · intro h
    simp only [advanceStep]
    rw [if_neg (by rw [h]; exact Bool.false_ne_true)]
  · intro h
    obtain ⟨k, hk, hfree⟩ := exists_free_hjs gs
    have hspec := findFreeHjs_spec gs (gs.length + 1) 0
      ⟨k, hk, by rw [Nat.zero_add]; exact hfree⟩
    refine ⟨findFreeHjs gs (gs.length + 1) 0, hspec.1, ?_, ?_⟩
    · intro m hm
      exact hspec.2.2 m (Nat.zero_le m) hm
    · simp only [advanceStep]
      rw [if_pos h]

/-! ## C6: addString (src/himd.ts) -/

/-- HiMDStringChunk from src/himd.ts: 14 content bytes plus the packed
link/type flags word. -/
structure HiMDStringChunk where
  content : List Nat
  link : Nat
  type : Nat
deriving DecidableEq

/-- HiMD.getStringChunk: the 16-byte chunk at 0x40000 + 0x10 * index;
flags live in the 16-bit word at offset 14, link in the low 12 bits and
type in the high 4. -/
def getStringChunk (tif : Buf) (index : Nat) : HiMDStringChunk :=
  let b := 0x40000 + 0x10 * index
  { content := (List.range 14).map (fun i => tif (b + i)),
    link := getUint16 tif (b + 14) &&& 0xfff,
    type := getUint16 tif (b + 14) >>> 12 }

/-- The chunk.content.forEach byte copy of writeStringChunk. -/
def writeBytes (d : Buf) (base : Nat) (content : List Nat) : Buf :=
  fun p => if base ≤ p ∧ p < base + content.length then content.getD (p - base) 0 % 256 else d p

/-- HiMD.writeStringChunk: store the packed flags word at offset 14 and
copy the content bytes (asserted to number 14 in the source) over the
start of the chunk. -/
def writeStringChunk (tif : Buf) (index : Nat) (c : HiMDStringChunk) : Buf :=
  let b := 0x40000 + 0x10 * index
  writeBytes (setUint16 tif ((c.link &&& 0xfff) ||| (c.type <<< 12)) (b + 14)) b c.content

/-- The text codecs used by addString (iconv latin1 / utf16be and jconv
sjis).  Modelled from the spec: the encoders live outside the repository;
they are abstracted as an encode partial map and a decode map per
encoding byte. -/
structure TextCodecs where
  enc : Nat → String → Option (List Nat)
  dec : Nat → List Nat → String

/-- One attempt of the encoding loop: encode, decode back, accept when
the round-trip reproduces the string, producing [encodingByte, bytes...]. -/
def tryEncoding (tc : TextCodecs) (e : Nat) (s : String) : Option (List Nat) :=
  match tc.enc e s with
  | none => none
  | some bytes => if tc.dec e bytes = s then some (e :: bytes) else none

/-- The encoding selection of addString, in the fixed source order
LATIN1 (0x05), SHIFT_JIS (0x90), UTF16BE (0x84). -/
def chooseEncoded (tc : TextCodecs) (s : String) : Option (List Nat) :=
  match tryEncoding tc 0x05 s with
  | some t => some t
  | none =>
    match tryEncoding tc 0x90 s with
    | some t => some t
    | none => tryEncoding tc 0x84 s

/-- The free-slot counting loop of addString: slots iterations from chunk
0, throwing on a used chunk or a null link. -/
def checkFreeLoop (tif : Buf) : Nat → Nat → Except String Unit
  | 0, _ => Except.ok ()
  | i + 1, index =>
    let chunk := getStringChunk tif index
    if chunk.type ≠ 0 then Except.error "Freelist string chain broken"
    else if chunk.link = 0 then Except.error "Not enough free string slots"
    else checkFreeLoop tif i chunk.link

/-- padStartUint8Array(data, 14): despite the name it appends zero bytes
after the data. -/
def padTo14 (l : List Nat) : List Nat := l ++ List.replicate (14 - l.length) 0

/-- The chunk-writing loop of addString: consume 14 bytes per chunk, the
first chunk typed with the requested type and the rest as continuations,
the last chunk terminated with link 0, following the stored links; the
accumulated pair is the final buffer and the index left after the loop
(the old link of the last written chunk). -/
def writeChunksLoop (ty : Nat) : Nat → Buf → Nat → Nat → List Nat → Buf × Nat
  | 0, tif, _, index, _ => (tif, index)
  | rem + 1, tif, i, index, bytes =>
    let chunk := getStringChunk tif index
    let nextLink := chunk.link
    let newLink := if rem = 0 then 0 else chunk.link
    let tif2 := writeStringChunk tif index
      { content := padTo14 (bytes.take 14), link := newLink,
        type := if i = 0 then ty else 1 }
    writeChunksLoop ty rem tif2 (i + 1) nextLink (bytes.drop 14)

/-- HiMD.addString from src/himd.ts: choose the first round-tripping
encoding, compute slots = floor((length + 13) / 14), run the free-slot
check from chunk 0, then write the chunks starting at chunk 0's link and
relink chunk 0 to the first chunk left unused. -/
def addString (tc : TextCodecs) (tif : Buf) (s : String) (ty : Nat) :
    Except String (Buf × Nat) :=
  match chooseEncoded tc s with
  | none => Except.error "Cannot encode the string"
  | some encodedText =>
    let slots := (encodedText.length + 13) / 14
    match checkFreeLoop tif slots 0 with
    | Except.error e => Except.error e
    | Except.ok _ =>
      let startIndex := (getStringChunk tif 0).link
      let res := writeChunksLoop ty slots tif 0 startIndex encodedText
      let freelist0 := getStringChunk res.1 0
      let tif2 := writeStringChunk res.1 0 { freelist0 with link := res.2 }
      Except.ok (tif2, startIndex)

/-- The string freelist as read from the buffer: successive links from
chunk 0 through the free (UNUSED) chunks, terminated by link 0. -/
def ChainFrom (tif : Buf) : Nat → List Nat → Prop
  | idx, [] => (getStringChunk tif idx).link = 0
  | idx, f :: rest => (getStringChunk tif idx).link = f ∧ f ≠ 0 ∧
      (getStringChunk tif f).type = 0 ∧ ChainFrom tif f rest

/-- Well-formed freelist rooted at chunk 0 (whose type the check loop
also inspects). -/
def FreeChain (tif : Buf) (fs : List Nat) : Prop :=
  (getStringChunk tif 0).type = 0 ∧ ChainFrom tif 0 fs

/-- A segment of stored links: each listed chunk links to the next, the
last one to L. -/
def LinkSeg (tif : Buf) : List Nat → Nat → Prop
  | [], _ => True
  | g :: rest, L => (getStringChunk tif g).link = rest.headD L ∧ LinkSeg tif rest L

theorem uint16_reassemble_mod (v : Nat) :
    (((v >>> 8) &&& 0xff) <<< 8) ||| (v &&& 0xff) = v % 2 ^ 16 := by
  rw [mask_ff_eq_mod, mask_ff_eq_mod, Nat.shiftRight_eq_div_pow, Nat.shiftLeft_eq,
    lor_eq_add_of_aligned (k := 8) (by omega) (by omega)]
  omega

theorem setUint16_get_mod (d : Buf) (v o : Nat) :
    getUint16 (setUint16 d v o) o = v % 2 ^ 16 := by
  simp only [getUint16, setUint16, setByte, ite_true, eq_self_iff_true]
  rw [if_neg (show ¬o = o + 1 by omega), mask_ff_mod, mask_ff_mod]
  exact uint16_reassemble_mod v

theorem flags_link_eq (l t : Nat) (hl : l < 0x1000) :
    ((l &&& 0xfff) ||| (t <<< 12)) % 2 ^ 16 &&& 0xfff = l := by
  have h1 : l &&& 0xfff = l := by
    rw [show (0xfff : Nat) = 2 ^ 12 - 1 by norm_num, Nat.and_pow_two_sub_one_eq_mod]
    omega
  have h2 : (t <<< 12) ||| (l &&& 0xfff) = t <<< 12 + (l &&& 0xfff) :=
    lor_eq_add_of_aligned (k := 12) (by rw [Nat.shiftLeft_eq]; omega) (by rw [h1]; omega)
  rw [Nat.lor_comm, h2, h1, Nat.shiftLeft_eq,
    show (0xfff : Nat) = 2 ^ 12 - 1 by norm_num, Nat.and_pow_two_sub_one_eq_mod]
  omega

theorem flags_type_eq (l t : Nat) (hl : l < 0x1000) (ht : t < 16) :
    (((l &&& 0xfff) ||| (t <<< 12)) % 2 ^ 16) >>> 12 = t := by
  have h1 : l &&& 0xfff = l := by
    rw [show (0xfff : Nat) = 2 ^ 12 - 1 by norm_num, Nat.and_pow_two_sub_one_eq_mod]
    omega
  have h2 : (t <<< 12) ||| (l &&& 0xfff) = t <<< 12 + (l &&& 0xfff) :=
    lor_eq_add_of_aligned (k := 12) (by rw [Nat.shiftLeft_eq]; omega) (by rw [h1]; omega)
  rw [Nat.lor_comm, h2, h1, Nat.shiftLeft_eq, Nat.shiftRight_eq_div_pow]
  omega

theorem writeBytes_out (d : Buf) (base : Nat) (content : List Nat) (p : Nat)
    (h : ¬(base ≤ p ∧ p < base + content.length)) : writeBytes d base content p = d p := by
  simp only [writeBytes]
  rw [if_neg h]

theorem writeBytes_in (d : Buf) (base : Nat) (content : List Nat) (p : Nat)
    (h1 : base ≤ p) (h2 : p < base + content.length) :
    writeBytes d base content p = content.getD (p - base) 0 % 256 := by
  simp only [writeBytes]
  rw [if_pos ⟨h1, h2⟩]

/-- getStringChunk only looks at the 16 bytes of its chunk. -/
theorem getStringChunk_congr (d1 d2 : Buf) (idx : Nat)
    (h : ∀ i, i < 16 → d1 (0x40000 + 0x10 * idx + i) = d2 (0x40000 + 0x10 * idx + i)) :
    getStringChunk d1 idx = getStringChunk d2 idx := by
  have hu : getUint16 d1 (0x40000 + 0x10 * idx + 14) =
      getUint16 d2 (0x40000 + 0x10 * idx + 14) := by
    simp only [getUint16]
    rw [h 14 (by omega),
      show 0x40000 + 0x10 * idx + 14 + 1 = 0x40000 + 0x10 * idx + 15 from by omega,
      h 15 (by omega)]
  have hc : (List.range 14).map (fun i => d1 (0x40000 + 0x10 * idx + i)) =
      (List.range 14).map (fun i => d2 (0x40000 + 0x10 * idx + i)) := by
    apply List.map_congr_left
    intro a ha
    have := List.mem_range.mp ha
    exact h a (by omega)
  simp only [getStringChunk]
  rw [hc, hu]

theorem writeStringChunk_get_other (tif : Buf) (idx : Nat) (c : HiMDStringChunk)
    (hlen : c.content.length = 14) (j : Nat) (hj : j ≠ idx) :
    getStringChunk (writeStringChunk tif idx c) j = getStringChunk tif j := by
  apply getStringChunk_congr
  intro i hi
  show writeBytes (setUint16 tif ((c.link &&& 0xfff) ||| (c.type <<< 12))
      (0x40000 + 0x10 * idx + 14)) (0x40000 + 0x10 * idx) c.content
      (0x40000 + 0x10 * j + i) = tif (0x40000 + 0x10 * j + i)
  exact (writeBytes_out _ _ _ _ (by rw [hlen]; omega)).trans
    (setUint16_ne _ _ _ _ (by omega) (by omega))

/-- Reading back the chunk just written (in-range link and type, byte
contents of the asserted length 14). -/
theorem writeStringChunk_get_same (tif : Buf) (idx : Nat) (c : HiMDStringChunk)
    (hlen : c.content.length = 14) (hb : ∀ x ∈ c.content, x < 256)
    (hl : c.link < 0x1000) (ht : c.type < 16) :
    getStringChunk (writeStringChunk tif idx c) idx = c := by
  obtain ⟨cc, cl, cty⟩ := c
  simp only at hlen hb hl ht
  have hflags : getUint16 (writeStringChunk tif idx ⟨cc, cl, cty⟩)
      (0x40000 + 0x10 * idx + 14) = ((cl &&& 0xfff) ||| (cty <<< 12)) % 2 ^ 16 := by
    show getUint16 (writeBytes (setUint16 tif ((cl &&& 0xfff) ||| (cty <<< 12))
        (0x40000 + 0x10 * idx + 14)) (0x40000 + 0x10 * idx) cc)
      (0x40000 + 0x10 * idx + 14) = _
    simp only [getUint16]
    have e1 : writeBytes (setUint16 tif ((cl &&& 0xfff) ||| (cty <<< 12))
        (0x40000 + 0x10 * idx + 14)) (0x40000 + 0x10 * idx) cc
        (0x40000 + 0x10 * idx + 14) =
        setUint16 tif ((cl &&& 0xfff) ||| (cty <<< 12)) (0x40000 + 0x10 * idx + 14)
          (0x40000 + 0x10 * idx + 14) :=
      writeBytes_out _ _ _ _ (by rw [hlen]; omega)
    have e2 : writeBytes (setUint16 tif ((cl &&& 0xfff) ||| (cty <<< 12))
        (0x40000 + 0x10 * idx + 14)) (0x40000 + 0x10 * idx) cc
        (0x40000 + 0x10 * idx + 14 + 1) =
        setUint16 tif ((cl &&& 0xfff) ||| (cty <<< 12)) (0x40000 + 0x10 * idx + 14)
          (0x40000 + 0x10 * idx + 14 + 1) :=
      writeBytes_out _ _ _ _ (by rw [hlen]; omega)
    rw [e1, e2]
    exact setUint16_get_mod tif _ _
  simp only [getStringChunk]
  rw [hflags, flags_link_eq cl cty hl, flags_type_eq cl cty hl ht]
  simp only [HiMDStringChunk.mk.injEq]
  refine ⟨?_, trivial, trivial⟩
  apply List.ext_getElem
  · simp [hlen]
  · intro n h1 h2
    simp only [List.getElem_map, List.getElem_range]
    have hn : n < 14 := by simpa using h1
    show writeBytes (setUint16 tif ((cl &&& 0xfff) ||| (cty <<< 12))
        (0x40000 + 0x10 * idx + 14)) (0x40000 + 0x10 * idx) cc
      (0x40000 + 0x10 * idx + n) = cc[n]
    have hin : writeBytes (setUint16 tif ((cl &&& 0xfff) ||| (cty <<< 12))
        (0x40000 + 0x10 * idx + 14)) (0x40000 + 0x10 * idx) cc
        (0x40000 + 0x10 * idx + n) =
        cc.getD (0x40000 + 0x10 * idx + n - (0x40000 + 0x10 * idx)) 0 % 256 :=
      writeBytes_in _ _ _ _ (by omega) (by rw [hlen]; omega)
    rw [hin, show 0x40000 + 0x10 * idx + n - (0x40000 + 0x10 * idx) = n by omega,
      List.getD_eq_getElem _ _ (by rw [hlen]; exact hn)]
    exact Nat.mod_eq_of_lt (hb _ (List.getElem_mem _))

theorem chainFrom_mem (tif : Buf) : ∀ fs idx, ChainFrom tif idx fs →
    ∀ f ∈ fs, f ≠ 0 ∧ (getStringChunk tif f).type = 0 := by
  intro fs
  induction fs with
  | nil =>
    intro idx h f hf
    simp at hf
  | cons g rest ih =>
    intro idx h f hf
    obtain ⟨hlink, hg0, hgt, hrest⟩ := h
    rcases List.mem_cons.mp hf with rfl | hf2
    · exact ⟨hg0, hgt⟩
    · exact ih g hrest f hf2

theorem linkSeg_congr (d1 d2 : Buf) : ∀ gs L,
    (∀ g ∈ gs, getStringChunk d2 g = getStringChunk d1 g) →
    LinkSeg d1 gs L → LinkSeg d2 gs L := by
  intro gs
  induction gs with
  | nil =>
    intro L h hl
    trivial
  | cons g rest ih =>
    intro L h hl
    obtain ⟨h1, h2⟩ := hl
    refine ⟨?_, ih L (fun x hx => h x (List.mem_cons_of_mem g hx)) h2⟩
    rw [h g (List.mem_cons_self g rest)]
    exact h1

theorem chainFrom_linkSeg (tif : Buf) : ∀ fs idx, ChainFrom tif idx fs →
    ∀ s, LinkSeg tif (fs.take s) (fs.getD s 0) := by
  intro fs
  induction fs with
  | nil =>
    intro idx h s
    simp only [List.take_nil]
    trivial
  | cons g rest ih =>
    intro idx h s
    obtain ⟨hlink, hg0, hgt, hrest⟩ := h
    cases s with
    | zero => trivial
    | succ s =>
      show LinkSeg tif (g :: rest.take s) ((g :: rest).getD (s + 1) 0)
      refine ⟨?_, by simpa using ih g hrest s⟩
      cases rest with
      | nil =>
        simpa using hrest
      | cons r rest2 =>
        obtain ⟨hlg, _, _, _⟩ := hrest
        cases s with
        | zero => simpa using hlg
        | succ s2 => simpa using hlg

theorem checkFreeLoop_chain (tif : Buf) : ∀ fs idx slots,
    (getStringChunk tif idx).type = 0 → ChainFrom tif idx fs →
    checkFreeLoop tif slots idx =
      if slots ≤ fs.length then Except.ok ()
      else Except.error "Not enough free string slots" := by
  intro fs
  induction fs with
  | nil =>
    intro idx slots hty hch
    cases slots with
    | zero => simp [checkFreeLoop]
    | succ s =>
      simp only [checkFreeLoop]
      rw [if_neg (by simp [hty]),
        if_pos (show (getStringChunk tif idx).link = 0 from hch)]
      simp
  | cons g rest ih =>
    intro idx slots hty hch
    obtain ⟨hlink, hg0, hgt, hrest⟩ := hch
    cases slots with
    | zero => simp [checkFreeLoop]
    | succ s =>
      simp only [checkFreeLoop]
      rw [if_neg (by simp [hty]), hlink, if_neg hg0, ih g s hgt hrest]
      exact if_congr (by simp) rfl rfl

theorem tryEncoding_some_iff (tc : TextCodecs) (e : Nat) (s : String) (t : List Nat) :
    tryEncoding tc e s = some t ↔
      ∃ bytes, tc.enc e s = some bytes ∧ tc.dec e bytes = s ∧ t = e :: bytes := by
  unfold tryEncoding
  cases henc : tc.enc e s with
  | none => simp
  | some bytes =>
    by_cases hdec : tc.dec e bytes = s
    · simp only [if_pos hdec, Option.some.injEq]
      constructor
      · rintro rfl
        exact ⟨bytes, rfl, hdec, rfl⟩
      · rintro ⟨b, hb, _, rfl⟩
        cases hb
        rfl
    · simp only [if_neg hdec]
      constructor
      · rintro h
        cases h
      · rintro ⟨b, hb, hd, rfl⟩
        cases hb
        exact absurd hd hdec

theorem tryEncoding_none_iff (tc : TextCodecs) (e : Nat) (s : String) :
    tryEncoding tc e s = none ↔
      ∀ bytes, tc.enc e s = some bytes → tc.dec e bytes ≠ s := by
  unfold tryEncoding
  cases henc : tc.enc e s with
  | none =>
    simp
  | some bytes =>
    by_cases hdec : tc.dec e bytes = s
    · simp only [if_pos hdec]
      constructor
      · rintro h
        cases h
      · intro h
        exact absurd hdec (h bytes rfl)
    · simp only [if_neg hdec]
      constructor
      · intro _ b hb
        cases hb
        exact hdec
      · intro _
        trivial

theorem padTo14_length (l : List Nat) (h : l.length ≤ 14) : (padTo14 l).length = 14 := by
  simp only [padTo14, List.length_append, List.length_replicate]
  omega

theorem padTo14_bytes (l : List Nat) (hb : ∀ x ∈ l, x < 256) :
    ∀ x ∈ padTo14 l, x < 256 := by
  intro x hx
  rcases List.mem_append.mp hx with h | h
  · exact hb x h
  · rw [List.eq_of_mem_replicate h]
    omega

/-- Full characterization of the chunk-writing loop along a segment of
the freelist: it consumes the listed chunks in order, writes the 14-byte
pieces with the first/continuation types and the terminating zero link,
touches nothing else, and ends at the stored link of the last chunk. -/
theorem writeChunksLoop_spec (ty : Nat) (hty : ty < 16) :
    ∀ gs : List Nat, gs ≠ [] → ∀ (tif : Buf) (i : Nat) (bytes : List Nat) (L : Nat),
    gs.Nodup → (∀ g ∈ gs, g ≠ 0 ∧ g < 0x1000) → (∀ x ∈ bytes, x < 256) →
    LinkSeg tif gs L →
    (writeChunksLoop ty gs.length tif i (gs.headD 0) bytes).2 = L ∧
    (∀ j, j ∉ gs →
      getStringChunk (writeChunksLoop ty gs.length tif i (gs.headD 0) bytes).1 j =
        getStringChunk tif j) ∧
    ∀ k, k < gs.length →
      getStringChunk (writeChunksLoop ty gs.length tif i (gs.headD 0) bytes).1
          (gs.getD k 0) =
        { content := padTo14 ((bytes.drop (14 * k)).take 14),
          link := if k = gs.length - 1 then 0 else gs.getD (k + 1) 0,
          type := if i + k = 0 then ty else 1 } := by
  intro gs
  induction gs with
  | nil => intro h; exact absurd rfl h
  | cons g rest ih =>
    intro _ tif i bytes L hnd hmem hbytes hseg
    obtain ⟨hlg, hseg2⟩ := hseg
    have hgnotin : g ∉ rest := (List.nodup_cons.mp hnd).1
    have hndr : rest.Nodup := (List.nodup_cons.mp hnd).2
    have hmemr : ∀ x ∈ rest, x ≠ 0 ∧ x < 0x1000 :=
      fun x hx => hmem x (List.mem_cons_of_mem g hx)
    have hcontlen : (padTo14 (bytes.take 14)).length = 14 :=
      padTo14_length _ (by simp)
    have hcontbytes : ∀ x ∈ padTo14 (bytes.take 14), x < 256 :=
      padTo14_bytes _ (fun x hx => hbytes x (List.mem_of_mem_take hx))
    have hnewtype : (if i = 0 then ty else 1) < 16 := by
      split
      · exact hty
      · omega
    cases rest with
    | nil =>
      have hlgL : (getStringChunk tif g).link = L := by simpa using hlg
      have hunf : writeChunksLoop ty ([g] : List Nat).length tif i
          (([g] : List Nat).headD 0) bytes =
          (writeStringChunk tif g
            { content := padTo14 (bytes.take 14), link := 0,
              type := if i = 0 then ty else 1 }, L) := by
        simp only [List.length_cons, List.length_nil, List.headD_cons, writeChunksLoop,
          eq_self_iff_true, if_true]
        rw [hlgL]
      rw [hunf]
      refine ⟨rfl, ?_, ?_⟩
      · intro j hj
        have hjg : j ≠ g := by simpa using hj
        exact writeStringChunk_get_other _ _ _ hcontlen j hjg
      · intro k hk
        have hk0 : k = 0 := by simpa using hk
        subst hk0
        simp only [List.getD_cons_zero, List.drop_zero]
        rw [writeStringChunk_get_same _ _ _ hcontlen hcontbytes
          (show (0 : Nat) < 0x1000 by norm_num) hnewtype]
        simp
    | cons r rest2 =>
      have hlgr : (getStringChunk tif g).link = r := by simpa using hlg
      have hrlt : r < 0x1000 := (hmemr r (List.mem_cons_self r rest2)).2
      have hunf : writeChunksLoop ty (g :: r :: rest2).length tif i
          ((g :: r :: rest2).headD 0) bytes =
          writeChunksLoop ty (r :: rest2).length
            (writeStringChunk tif g
              { content := padTo14 (bytes.take 14), link := r,
                type := if i = 0 then ty else 1 })
            (i + 1) r (bytes.drop 14) := by
        simp only [List.length_cons, List.headD_cons, writeChunksLoop]
        rw [if_neg (Nat.succ_ne_zero rest2.length), hlgr]
      have hsegr : LinkSeg (writeStringChunk tif g
          { content := padTo14 (bytes.take 14), link := r,
            type := if i = 0 then ty else 1 }) (r :: rest2) L := by
        apply linkSeg_congr
        · intro x hx
          exact writeStringChunk_get_other _ _ _ hcontlen x (fun hxg => hgnotin (hxg ▸ hx))
        · exact hseg2
      obtain ⟨ih1, ih2, ih3⟩ := ih (by simp) _ (i + 1) (bytes.drop 14) L hndr hmemr
        (fun x hx => hbytes x (List.mem_of_mem_drop hx)) hsegr
      simp only [List.headD_cons] at ih1 ih2 ih3
      rw [hunf]
      refine ⟨ih1, ?_, ?_⟩
      · intro j hj
        rw [ih2 j (fun hjr => hj (List.mem_cons_of_mem g hjr))]
        exact writeStringChunk_get_other _ _ _ hcontlen j
          (fun hjg => hj (hjg ▸ List.mem_cons_self g _))
      · intro k hk
        cases k with
        | zero =>
          simp only [List.getD_cons_zero, List.drop_zero]
          rw [ih2 g hgnotin,
            writeStringChunk_get_same _ _ _ hcontlen hcontbytes hrlt hnewtype]
          simp
        | succ k2 =>
          have hk2 : k2 < (r :: rest2).length := by simpa using hk
          have hrec := ih3 k2 hk2
          simp only [List.getD_cons_succ]
          rw [hrec]
          simp only [List.drop_drop, HiMDStringChunk.mk.injEq]
          refine ⟨by rw [show 14 + 14 * k2 = 14 * (k2 + 1) by ring], ?_, ?_⟩
          · rw [show (r :: rest2).getD (k2 + 1) 0 = (g :: r :: rest2).getD (k2 + 1 + 1) 0
              from (List.getD_cons_succ ..).symm]
            exact if_congr (by simp) rfl rfl
          · rw [if_neg (show ¬(i + 1 + k2 = 0) by omega),
              if_neg (show ¬(i + (k2 + 1) = 0) by omega)]

theorem chooseEncoded_none_iff (tc : TextCodecs) (s : String) :
    chooseEncoded tc s = none ↔
      ∀ e ∈ ([0x05, 0x90, 0x84] : List Nat), ∀ bytes,
        tc.enc e s = some bytes → tc.dec e bytes ≠ s := by
  unfold chooseEncoded
  cases h5 : tryEncoding tc 0x05 s with
  | some t =>
    obtain ⟨b, hb, hd, rfl⟩ := (tryEncoding_some_iff tc 0x05 s t).mp h5
    constructor
    · intro h
      cases h
    · intro hall
      exact absurd hd (hall 0x05 (by simp) b hb)
  | none =>
    have hn5 := (tryEncoding_none_iff tc 0x05 s).mp h5
    cases h90 : tryEncoding tc 0x90 s with
    | some t =>
      obtain ⟨b, hb, hd, rfl⟩ := (tryEncoding_some_iff tc 0x90 s t).mp h90
      constructor
      · intro h
        cases h
      · intro hall
        exact absurd hd (hall 0x90 (by simp) b hb)
    | none =>
      have hn90 := (tryEncoding_none_iff tc 0x90 s).mp h90
      constructor
      · intro h84
        have hn84 := (tryEncoding_none_iff tc 0x84 s).mp h84
        intro e he bytes henc hdec
        have he3 : e = 0x05 ∨ e = 0x90 ∨ e = 0x84 := by simpa using he
        rcases he3 with rfl | rfl | rfl
        · exact hn5 bytes henc hdec
        · exact hn90 bytes henc hdec
        · exact hn84 bytes henc hdec
      · intro hall
        rw [tryEncoding_none_iff]
        intro bytes henc hdec
        exact hall 0x84 (by simp) bytes henc hdec

theorem chooseEncoded_some_spec (tc : TextCodecs) (s : String) (text : List Nat)
    (h : chooseEncoded tc s = some text) :
    ∃ e bytes, text = e :: bytes ∧ tc.enc e s = some bytes ∧ tc.dec e bytes = s ∧
      (e = 0x05 ∨
        ((∀ b, tc.enc 0x05 s = some b → tc.dec 0x05 b ≠ s) ∧
          (e = 0x90 ∨
            ((∀ b, tc.enc 0x90 s = some b → tc.dec 0x90 b ≠ s) ∧ e = 0x84)))) := by
  unfold chooseEncoded at h
  cases h5 : tryEncoding tc 0x05 s with
  | some t =>
    rw [h5] at h
    obtain ⟨b, hb, hd, rfl⟩ := (tryEncoding_some_iff tc 0x05 s t).mp h5
    injection h with h
    exact ⟨0x05, b, h.symm, hb, hd, Or.inl rfl⟩
  | none =>
    rw [h5] at h
    have hn5 := (tryEncoding_none_iff tc 0x05 s).mp h5
    cases h90 : tryEncoding tc 0x90 s with
    | some t =>
      rw [h90] at h
      obtain ⟨b, hb, hd, rfl⟩ := (tryEncoding_some_iff tc 0x90 s t).mp h90
      injection h with h
      exact ⟨0x90, b, h.symm, hb, hd, Or.inr ⟨hn5, Or.inl rfl⟩⟩
    | none =>
      rw [h90] at h
      have hn90 := (tryEncoding_none_iff tc 0x90 s).mp h90
      obtain ⟨b, hb, hd, rfl⟩ := (tryEncoding_some_iff tc 0x84 s text).mp h
      exact ⟨0x84, b, rfl, hb, hd, Or.inr ⟨hn5, Or.inr ⟨hn90, rfl⟩⟩⟩

theorem getStringChunk_content_length (d : Buf) (i : Nat) :
    (getStringChunk d i).content.length = 14 := by
  simp [getStringChunk]

/-- The flags word read back after writeStringChunk. -/
theorem writeStringChunk_read_flags (tif : Buf) (idx : Nat) (c : HiMDStringChunk)
    (hlen : c.content.length = 14) :
    getUint16 (writeStringChunk tif idx c) (0x40000 + 0x10 * idx + 14) =
      ((c.link &&& 0xfff) ||| (c.type <<< 12)) % 2 ^ 16 := by
  show getUint16 (writeBytes (setUint16 tif ((c.link &&& 0xfff) ||| (c.type <<< 12))
      (0x40000 + 0x10 * idx + 14)) (0x40000 + 0x10 * idx) c.content)
    (0x40000 + 0x10 * idx + 14) = _
  simp only [getUint16]
  have e1 : writeBytes (setUint16 tif ((c.link &&& 0xfff) ||| (c.type <<< 12))
      (0x40000 + 0x10 * idx + 14)) (0x40000 + 0x10 * idx) c.content
      (0x40000 + 0x10 * idx + 14) =
      setUint16 tif ((c.link &&& 0xfff) ||| (c.type <<< 12)) (0x40000 + 0x10 * idx + 14)
        (0x40000 + 0x10 * idx + 14) :=
    writeBytes_out _ _ _ _ (by rw [hlen]; omega)
  have e2 : writeBytes (setUint16 tif ((c.link &&& 0xfff) ||| (c.type <<< 12))
      (0x40000 + 0x10 * idx + 14)) (0x40000 + 0x10 * idx) c.content
      (0x40000 + 0x10 * idx + 14 + 1) =
      setUint16 tif ((c.link &&& 0xfff) ||| (c.type <<< 12)) (0x40000 + 0x10 * idx + 14)
        (0x40000 + 0x10 * idx + 14 + 1) :=
    writeBytes_out _ _ _ _ (by rw [hlen]; omega)
  rw [e1, e2]
  exact setUint16_get_mod tif _ _

/-- The link read back after writeStringChunk, with no constraint on the
stored type. -/
theorem writeStringChunk_get_link (tif : Buf) (idx : Nat) (c : HiMDStringChunk)
    (hlen : c.content.length = 14) (hl : c.link < 0x1000) :
    (getStringChunk (writeStringChunk tif idx c) idx).link = c.link := by
  simp only [getStringChunk]
  rw [writeStringChunk_read_flags tif idx c hlen]
  exact flags_link_eq c.link c.type hl

theorem take_getD (l : List Nat) (s k : Nat) (hk : k < s) (hkl : k < l.length) :
    (l.take s).getD k 0 = l.getD k 0 := by
  rw [List.getD_eq_getElem _ _ (by simp; omega), List.getD_eq_getElem _ _ hkl]
  exact List.getElem_take ..

theorem chainFrom_head (tif : Buf) (fs : List Nat) (idx : Nat) (h : ChainFrom tif idx fs)
    (hne : 1 ≤ fs.length) : (getStringChunk tif idx).link = fs.getD 0 0 := by
  cases fs with
  | nil => simp at hne
  | cons f r => simpa using h.1

theorem take_headD (l : List Nat) (s : Nat) (hs : 1 ≤ s) (hl : 1 ≤ l.length) :
    (l.take s).headD 0 = l.getD 0 0 := by
  cases l with
  | nil => simp at hl
  | cons a r =>
    cases s with
    | zero => omega
    | succ s2 => simp

/-- C6: addString tries Latin-1 (0x05), Shift-JIS (0x90) and UTF-16BE
(0x84) in that order and uses the first whose decode of the encode
reproduces the string; it throws the Unencodable error exactly when no
encoding round-trips; given a well-formed freelist it throws the
NotEnoughStringSlots error exactly when the freelist holds fewer free
chunks than slots = ceil((1 + encoded length) / 14); and on success it
pops the first slots free chunks, writes them with the 14-byte padded
pieces, the requested type on the first chunk and CONTINUATION (1) on
the rest, links each to the next and the last to 0, relinks chunk 0 to
the first unconsumed free chunk, leaves every other chunk untouched and
returns the first chunk index. -/
theorem addString_spec (tc : TextCodecs) (tif : Buf) (s : String) (ty : Nat)
    (fs : List Nat) (hwf : FreeChain tif fs) (hnd : fs.Nodup)
    (hflt : ∀ f ∈ fs, f < 0x1000) (hty : ty < 16) :
    (addString tc tif s ty = Except.error "Cannot encode the string" ↔
      ∀ e ∈ ([0x05, 0x90, 0x84] : List Nat), ∀ bytes,
        tc.enc e s = some bytes → tc.dec e bytes ≠ s) ∧
    (∀ text, chooseEncoded tc s = some text →
      ∃ e bytes, text = e :: bytes ∧ tc.enc e s = some bytes ∧ tc.dec e bytes = s ∧
        (e = 0x05 ∨
          ((∀ b, tc.enc 0x05 s = some b → tc.dec 0x05 b ≠ s) ∧
            (e = 0x90 ∨
              ((∀ b, tc.enc 0x90 s = some b → tc.dec 0x90 b ≠ s) ∧ e = 0x84))))) ∧
    (∀ text, chooseEncoded tc s = some text →
      (addString tc tif s ty = Except.error "Not enough free string slots" ↔
        fs.length < (text.length + 13) / 14)) ∧
    (∀ text, chooseEncoded tc s = some text → (∀ x ∈ text, x < 256) →
      (text.length + 13) / 14 ≤ fs.length →
      ∃ tif2, addString tc tif s ty = Except.ok (tif2, fs.getD 0 0) ∧
        (∀ k, k < (text.length + 13) / 14 →
          getStringChunk tif2 (fs.getD k 0) =
            { content := padTo14 ((text.drop (14 * k)).take 14),
              link := if k = (text.length + 13) / 14 - 1 then 0
                      else fs.getD (k + 1) 0,
              type := if k = 0 then ty else 1 }) ∧
        (getStringChunk tif2 0).link = fs.getD ((text.length + 13) / 14) 0 ∧
        (∀ j, j ∉ fs → j ≠ 0 → getStringChunk tif2 j = getStringChunk tif j)) := by
  obtain ⟨hty0, hch⟩ := hwf
  have hcfl : ∀ slots : Nat, checkFreeLoop tif slots 0 =
      if slots ≤ fs.length then Except.ok ()
      else Except.error "Not enough free string slots" :=
    fun slots => checkFreeLoop_chain tif fs 0 slots hty0 hch
  refine ⟨?_, ?_, ?_, ?_⟩
  · cases hco : chooseEncoded tc s with
    | none =>
      simp only [addString, hco]
      exact iff_of_true trivial ((chooseEncoded_none_iff tc s).mp hco)
    | some text =>
      obtain ⟨e, bytes, htext, henc, hdec, hor⟩ := chooseEncoded_some_spec tc s text hco
      have hrhs : ¬(∀ e2 ∈ ([0x05, 0x90, 0x84] : List Nat), ∀ b,
          tc.enc e2 s = some b → tc.dec e2 b ≠ s) := by
        intro hall
        rcases hor with rfl | ⟨_, hor2⟩
        · exact hall 0x05 (by simp) bytes henc hdec
        · rcases hor2 with rfl | ⟨_, rfl⟩
          · exact hall 0x90 (by simp) bytes henc hdec
          · exact hall 0x84 (by simp) bytes henc hdec
      refine iff_of_false ?_ hrhs
      simp only [addString, hco]
      rw [hcfl ((text.length + 13) / 14)]
      by_cases hle : (text.length + 13) / 14 ≤ fs.length
      · rw [if_pos hle]
        intro h
        simp at h
      · rw [if_neg hle]
        intro h
        simp at h
  · intro text hco
    exact chooseEncoded_some_spec tc s text hco
  · intro text hco
    simp only [addString, hco]
    rw [hcfl ((text.length + 13) / 14)]
    by_cases hle : (text.length + 13) / 14 ≤ fs.length
    · rw [if_pos hle]
      refine iff_of_false ?_ (by omega)
      intro h
      simp at h
    · rw [if_neg hle]
      refine iff_of_true ?_ (by omega)
      rfl
  · intro text hco hbytes hle
    obtain ⟨e, bytes, htext, henc, hdec, _⟩ := chooseEncoded_some_spec tc s text hco
    have htlen : 1 ≤ text.length := by
      rw [htext]
      exact Nat.succ_le_succ (Nat.zero_le _)
    have hslots1 : 1 ≤ (text.length + 13) / 14 := by omega
    have hfslen : 1 ≤ fs.length := le_trans hslots1 hle
    have hstart : (getStringChunk tif 0).link = fs.getD 0 0 :=
      chainFrom_head tif fs 0 hch hfslen
    have hgslen : (fs.take ((text.length + 13) / 14)).length = (text.length + 13) / 14 := by
      simp only [List.length_take]
      omega
    have hgsne : fs.take ((text.length + 13) / 14) ≠ [] :=
      List.ne_nil_of_length_pos (by rw [hgslen]; omega)
    have hgsmem : ∀ g ∈ fs.take ((text.length + 13) / 14), g ≠ 0 ∧ g < 0x1000 := by
      intro g hg
      have hgfs : g ∈ fs := List.mem_of_mem_take hg
      exact ⟨(chainFrom_mem tif fs 0 hch g hgfs).1, hflt g hgfs⟩
    have hgsnd : (fs.take ((text.length + 13) / 14)).Nodup :=
      (List.take_sublist _ _).nodup hnd
    have hseg : LinkSeg tif (fs.take ((text.length + 13) / 14))
        (fs.getD ((text.length + 13) / 14) 0) :=
      chainFrom_linkSeg tif fs 0 hch ((text.length + 13) / 14)
    have hheadD : (fs.take ((text.length + 13) / 14)).headD 0 = fs.getD 0 0 :=
      take_headD fs _ hslots1 hfslen
    obtain ⟨hl1, hl2, hl3⟩ := writeChunksLoop_spec ty hty
      (fs.take ((text.length + 13) / 14)) hgsne tif 0 text
      (fs.getD ((text.length + 13) / 14) 0) hgsnd hgsmem hbytes hseg
    rw [hgslen, hheadD, ← hstart] at hl1 hl2 hl3
    have hLlt : fs.getD ((text.length + 13) / 14) 0 < 0x1000 := by
      by_cases hcase : (text.length + 13) / 14 < fs.length
      · have hmem2 : fs.getD ((text.length + 13) / 14) 0 ∈ fs := by
          rw [List.getD_eq_getElem _ _ hcase]
          exact List.getElem_mem ..
        exact hflt _ hmem2
      · rw [List.getD_eq_default _ _ (by omega)]
        norm_num
    have hlen0 : ∀ (d : Buf) (L : Nat) (i : Nat),
        ({ getStringChunk d i with link := L } : HiMDStringChunk).content.length = 14 :=
      fun d L i => getStringChunk_content_length d i
    refine ⟨writeStringChunk
        (writeChunksLoop ty ((text.length + 13) / 14) tif 0
          ((getStringChunk tif 0).link) text).1 0
        { getStringChunk (writeChunksLoop ty ((text.length + 13) / 14) tif 0
            ((getStringChunk tif 0).link) text).1 0 with
          link := (writeChunksLoop ty ((text.length + 13) / 14) tif 0
            ((getStringChunk tif 0).link) text).2 }, ?_, ?_, ?_, ?_⟩
    · simp only [addString, hco]
      rw [hcfl ((text.length + 13) / 14), if_pos hle, ← hstart]
    · intro k hk
      have hkfs : k < fs.length := by omega
      have hne0 : fs.getD k 0 ≠ 0 := by
        have hmem2 : fs.getD k 0 ∈ fs := by
          rw [List.getD_eq_getElem _ _ hkfs]
          exact List.getElem_mem ..
        exact (chainFrom_mem tif fs 0 hch _ hmem2).1
      rw [writeStringChunk_get_other _ _ _ (hlen0 _ _ _) _ hne0]
      have hk2 := hl3 k hk
      rw [take_getD _ _ _ hk hkfs] at hk2
      rw [hk2]
      simp only [HiMDStringChunk.mk.injEq]
      refine ⟨trivial, ?_, by rw [Nat.zero_add]⟩
      by_cases hlast : k = (text.length + 13) / 14 - 1
      · rw [if_pos hlast, if_pos hlast]
      · rw [if_neg hlast, if_neg hlast]
        exact take_getD _ _ _ (by omega) (by omega)
    · refine (writeStringChunk_get_link _ _ _ (hlen0 _ _ _) ?_).trans hl1
      rw [show ({ getStringChunk (writeChunksLoop ty ((text.length + 13) / 14) tif 0
            ((getStringChunk tif 0).link) text).1 0 with
          link := (writeChunksLoop ty ((text.length + 13) / 14) tif 0
            ((getStringChunk tif 0).link) text).2 } : HiMDStringChunk).link =
          (writeChunksLoop ty ((text.length + 13) / 14) tif 0
            ((getStringChunk tif 0).link) text).2 from rfl, hl1]
      exact hLlt
    · intro j hjfs hj0
      rw [writeStringChunk_get_other _ _ _ (hlen0 _ _ _) j hj0]
      exact hl2 j (fun hj => hjfs (List.mem_of_mem_take hj))

/-- A concrete single-encoding codec pair for the witness: Latin-1 is
modelled as char-code bytes, the other encodings are unavailable. -/
def tcW : TextCodecs :=
  { enc := fun e s => if e = 0x05 then some (s.data.map Char.toNat) else none,
    dec := fun e bytes => if e = 0x05 then String.mk (bytes.map Char.ofNat) else "" }

/-- A string-chunk buffer whose freelist runs 0 → 1 → 2 (links stored in
the flags words, all types UNUSED). -/
def strBuf : Buf :=
  setUint16 (setUint16 (fun _ => 0) 1 (0x40000 + 14)) 2 (0x40000 + 0x10 + 14)

/-- C6 witness: the addString theorem applied to the two-chunk freelist,
the Latin-1-only codec, the string "A" and the TITLE type. -/
theorem addString_spec_witness :
    (addString tcW strBuf "A" 8 = Except.error "Cannot encode the string" ↔
      ∀ e ∈ ([0x05, 0x90, 0x84] : List Nat), ∀ bytes,
        tcW.enc e "A" = some bytes → tcW.dec e bytes ≠ "A") ∧
    (∀ text, chooseEncoded tcW "A" = some text →
      ∃ e bytes, text = e :: bytes ∧ tcW.enc e "A" = some bytes ∧ tcW.dec e bytes = "A" ∧
        (e = 0x05 ∨
          ((∀ b, tcW.enc 0x05 "A" = some b → tcW.dec 0x05 b ≠ "A") ∧
            (e = 0x90 ∨
              ((∀ b, tcW.enc 0x90 "A" = some b → tcW.dec 0x90 b ≠ "A") ∧ e = 0x84))))) ∧
    (∀ text, chooseEncoded tcW "A" = some text →
      (addString tcW strBuf "A" 8 = Except.error "Not enough free string slots" ↔
        ([1, 2] : List Nat).length < (text.length + 13) / 14)) ∧
    (∀ text, chooseEncoded tcW "A" = some text → (∀ x ∈ text, x < 256) →
      (text.length + 13) / 14 ≤ ([1, 2] : List Nat).length →
      ∃ tif2, addString tcW strBuf "A" 8 = Except.ok (tif2, ([1, 2] : List Nat).getD 0 0) ∧
        (∀ k, k < (text.length + 13) / 14 →
          getStringChunk tif2 (([1, 2] : List Nat).getD k 0) =
            { content := padTo14 ((text.drop (14 * k)).take 14),
              link := if k = (text.length + 13) / 14 - 1 then 0
                      else ([1, 2] : List Nat).getD (k + 1) 0,
              type := if k = 0 then 8 else 1 }) ∧
        (getStringChunk tif2 0).link = ([1, 2] : List Nat).getD ((text.length + 13) / 14) 0 ∧
        (∀ j, j ∉ ([1, 2] : List Nat) → j ≠ 0 →
          getStringChunk tif2 j = getStringChunk strBuf j)) :=
  addString_spec tcW strBuf "A" 8 [1, 2]
    (by simp only [FreeChain, ChainFrom]; decide) (by decide) (by decide) (by decide)

end HiMDJS
